import Mathlib

/-!
# IncludeOS local APIC driver and mmap emulation

A shallow embedding of `src/hw/apic.cpp` and `src/musl/mmap.cpp`.

The driver talks to memory-mapped registers and to shared memory that other
cores write.  Both are behind one interface, `Platform`: a load and a store on
named locations, and a call into functions that live outside the two files.
The code is embedded over an arbitrary platform; what it does is recorded in
an event log, in program order.  Unsigned 32-bit arithmetic is `Nat` arithmetic
reduced modulo `2 ^ 32`.
-/

namespace hw

/-! ## Machine words -/

/-- Conversion to `uint32_t`. -/
def u32 (n : Nat) : Nat := n % 2 ^ 32

/-- Conversion to `uint8_t`. -/
def u8 (n : Nat) : Nat := n % 256

/-- Conversion of an `int` to `uint8_t`. -/
def int_to_u8 (z : Int) : Nat := (z % 256).toNat

/-- Bitwise complement of a 32-bit word, the operator `~` followed by the
conversion to `uint32_t`. -/
def not32 (x : Nat) : Nat := (2 ^ 32 - 1) ^^^ u32 x

/-- Index of the lowest set bit of `x` at or above `k`, looking at `n` positions. -/
def ctz_from : Nat → Nat → Nat → Nat
  | 0, k, _ => k
  | n + 1, k, x => if x.testBit k then k else ctz_from n (k + 1) x

/-- The compiler builtin `__builtin_ffs` on a 32-bit argument: one plus the
index of the least significant set bit, and zero for a zero argument. -/
def builtin_ffs (x : Nat) : Nat :=
  if u32 x = 0 then 0 else ctz_from 32 0 (u32 x) + 1

/-! ## Locations -/

/-- Fields of one `IDTDescr`. -/
inductive IdtField
  | offset_1 | offset_2 | selector | type_attr | zero
  deriving DecidableEq, Repr

/-- Everything the driver loads from or stores to. `lapic off` is the register
slot at byte offset `off` of `apic_regs`; the others are the globals and the
patched structures the code writes. -/
inductive Loc
  | lapic (off : Nat)
  | idt_limit
  | idt_base
  | idt (i : Nat) (f : IdtField)
  | boot_worker_addr
  | boot_stack_base
  | boot_stack_size
  | boot_barrier
  | task_barrier
  | task_func
  | done_func
  deriving DecidableEq, Repr

/-- Byte offset of the `n`-th `apic_reg` of `struct apic_regs`; one `apic_reg`
is a 32-bit register and three words of padding. -/
def slot (n : Nat) : Nat := 16 * n

def LAPIC_ID : Nat := slot 2
def LAPIC_TPR : Nat := slot 8
def LAPIC_EOI : Nat := slot 11
def LAPIC_LDR : Nat := slot 13
def LAPIC_DFR : Nat := slot 14
def LAPIC_SPURIOUS : Nat := slot 15
def LAPIC_ISR : Nat := slot 16
def LAPIC_TMR : Nat := slot 24
def LAPIC_IRR : Nat := slot 32
def LAPIC_ICRL : Nat := slot 48
def LAPIC_ICRH : Nat := slot 49
def LAPIC_LVT_TMR : Nat := slot 50
def LAPIC_LVT_LINT0 : Nat := slot 53
def LAPIC_LVT_LINT1 : Nat := slot 54
def LAPIC_LVT_ERR : Nat := slot 55

def INTR_MASK : Nat := 0x00010000
def ICR_DEST_BITS : Nat := 24
def ICR_FIXED : Nat := 0x000000
def ICR_INIT : Nat := 0x000500
def ICR_STARTUP : Nat := 0x000600
def ICR_PHYSICAL : Nat := 0x000000
def ICR_SEND_PENDING : Nat := 0x001000
def ICR_ASSERT : Nat := 0x004000
def ICR_EDGE : Nat := 0x000000
def ICR_NO_SHORTHAND : Nat := 0x000000
def ICR_ALL_EXCLUDING_SELF : Nat := 0x0c0000
def BOOTLOADER_LOCATION : Nat := 0x80000
def LAPIC_IRQ_BASE : Nat := 120

/-! ## Platform, events, runs -/

/-- Functions called by the two files and defined elsewhere. -/
inductive Call
  | memcpy (dst src size : Nat)
  | new_IDTDescr (count : Nat)
  | aligned_alloc (a b : Nat)
  | get_cpu_id
  | invoke (fn arg : Nat)
  | invoke_done (fn : Nat)
  | ioapic_enable (a b c : Nat)
  deriving DecidableEq, Repr

/-- The hardware and the rest of the system, as the driver sees them. -/
structure Platform (σ : Type) where
  load : σ → Loc → Nat × σ
  store : σ → Loc → Nat → σ
  call : σ → Call → Nat × σ

/-- One observable step. `reset` and `spin_wait` mark the entry into the two
barrier methods. -/
inductive Event
  | rd (l : Loc) (v : Nat)
  | wr (l : Loc) (v : Nat)
  | ext (c : Call) (ret : Nat)
  | reset (b : Loc) (n : Nat)
  | spin_wait (b : Loc) (target : Nat)
  deriving DecidableEq, Repr

/-- Platform state together with the events so far, oldest first. -/
structure Sys (σ : Type) where
  hw : σ
  log : List Event

/-- Why a run did not return. -/
inductive Stop
  | spinning
  | assert_failed
  deriving DecidableEq, Repr

/-- A run either returns, or stops where it is. -/
abbrev Run (σ : Type) := Except (Stop × Sys σ) (Sys σ)

/-- State at the end of a run, returned or not. -/
def final {σ : Type} : Run σ → Sys σ
  | .ok s => s
  | .error e => e.2

/-- A 32-bit load. -/
def rd {σ : Type} (dev : Platform σ) (l : Loc) (s : Sys σ) : Nat × Sys σ :=
  let r := dev.load s.hw l
  (u32 r.1, { hw := r.2, log := s.log ++ [Event.rd l (u32 r.1)] })

/-- A 32-bit store. -/
def wr {σ : Type} (dev : Platform σ) (l : Loc) (v : Nat) (s : Sys σ) : Sys σ :=
  { hw := dev.store s.hw l v, log := s.log ++ [Event.wr l v] }

/-- A call of an outside function. -/
def ext {σ : Type} (dev : Platform σ) (c : Call) (s : Sys σ) : Nat × Sys σ :=
  let r := dev.call s.hw c
  (r.1, { hw := r.2, log := s.log ++ [Event.ext c r.1] })

/-- Plain memory: a load returns what was last stored. -/
def ram : Platform (Loc → Nat) where
  load := fun m l => (m l, m)
  store := fun m l v => Function.update m l v
  call := fun m _ => (0, m)

/-! ## struct apic -/

/-- Method `apic::get_id`. -/
def apic.get_id {σ : Type} (dev : Platform σ) (s : Sys σ) : Nat × Sys σ :=
  let r := rd dev (.lapic LAPIC_ID) s
  ((r.1 >>> 24) &&& 0xFF, r.2)

/-- Method `apic::set`: `reg[bit >> 5].reg |= 1 << (bit & 0x1f)`. -/
def apic.set {σ : Type} (dev : Platform σ) (reg : Nat) (bit : Nat) (s : Sys σ) : Sys σ :=
  let bit := u8 bit
  let l := Loc.lapic (reg + slot (bit >>> 5))
  let r := rd dev l s
  wr dev l (r.1 ||| u32 (1 <<< (bit &&& 0x1f))) r.2

/-- Method `apic::clr`: `reg[bit >> 5].reg &= ~(1 << (bit & 0x1f))`. -/
def apic.clr {σ : Type} (dev : Platform σ) (reg : Nat) (bit : Nat) (s : Sys σ) : Sys σ :=
  let bit := u8 bit
  let l := Loc.lapic (reg + slot (bit >>> 5))
  let r := rd dev l s
  wr dev l (r.1 &&& not32 (1 <<< (bit &&& 0x1f))) r.2

/-- The loop shared by `APIC::get_isr` and `APIC::get_irr`, over the eight
slots starting at `reg`: `n` slots are left and `i` is the loop variable. -/
def first_vector {σ : Type} (dev : Platform σ) (reg : Nat) : Nat → Nat → Sys σ → Nat × Sys σ
  | 0, _, s => (0, s)
  | n + 1, i, s =>
    let r := rd dev (.lapic (reg + slot i)) s
    if r.1 ≠ 0 then
      let q := rd dev (.lapic (reg + slot i)) r.2
      (int_to_u8 (32 * (i : Int) + (builtin_ffs q.1 : Int) - 1), q.2)
    else first_vector dev reg n (u8 (i + 1)) r.2

/-- Function `APIC::get_isr`. -/
def APIC.get_isr {σ : Type} (dev : Platform σ) (s : Sys σ) : Nat × Sys σ :=
  first_vector dev LAPIC_ISR 8 0 s

/-- Function `APIC::get_irr`. -/
def APIC.get_irr {σ : Type} (dev : Platform σ) (s : Sys σ) : Nat × Sys σ :=
  first_vector dev LAPIC_IRR 8 0 s

/-! ## Busy-waiting -/

/-- A loop `while (!stop(*l));` that re-reads location `l` until the value read
satisfies `stop`. `fuel` bounds the number of reads; a loop that has not seen
`stop` by then is still spinning. -/
def spin_until {σ : Type} (dev : Platform σ) (l : Loc) (stop : Nat → Bool) :
    Nat → Sys σ → Run σ
  | 0, s => .error (Stop.spinning, s)
  | fuel + 1, s =>
    let r := rd dev l s
    if stop r.1 then .ok r.2 else spin_until dev l stop fuel r.2

/-- Value returned by the `k`-th successive read of `l` (counting from 0) when
nothing else touches the platform in between. -/
def poll {σ : Type} (dev : Platform σ) (l : Loc) : Nat → σ → Nat
  | 0, h => u32 (dev.load h l).1
  | k + 1, h => poll dev l k (dev.load h l).2

/-- Condition that ends `while (regs->intr_lo.reg & ICR_SEND_PENDING);`. -/
def send_idle (v : Nat) : Bool := v &&& ICR_SEND_PENDING = 0

/-- Events of a completed busy-wait on `l`: reads of `l` only, the last one
satisfying `stop` and none before it. -/
def spin_trace (l : Loc) (stop : Nat → Bool) : List Event → Bool
  | [] => false
  | [Event.rd a v] => decide (a = l) && stop v
  | Event.rd a v :: rest => decide (a = l) && !stop v && spin_trace l stop rest
  | _ => false

/-- Events of a busy-wait on `l` that is still going: reads of `l` only, none
satisfying `stop`. -/
def stuck_trace (l : Loc) (stop : Nat → Bool) : List Event → Bool
  | [] => true
  | Event.rd a v :: rest => decide (a = l) && !stop v && stuck_trace l stop rest
  | _ => false

/-! ## Interrupt commands -/

/-- Method `apic::ap_init`. -/
def apic.ap_init {σ : Type} (dev : Platform σ) (fuel : Nat) (id : Nat) (s : Sys σ) : Run σ :=
  let id := u8 id
  let s1 := wr dev (.lapic LAPIC_ICRH) (u32 (id <<< ICR_DEST_BITS)) s
  let s2 := wr dev (.lapic LAPIC_ICRL)
    (ICR_INIT ||| ICR_PHYSICAL ||| ICR_ASSERT ||| ICR_EDGE ||| ICR_NO_SHORTHAND) s1
  spin_until dev (.lapic LAPIC_ICRL) send_idle fuel s2

/-- Method `apic::ap_start`. -/
def apic.ap_start {σ : Type} (dev : Platform σ) (fuel : Nat) (id : Nat) (vector : Nat)
    (s : Sys σ) : Run σ :=
  let id := u8 id
  let vector := u32 vector
  let s1 := wr dev (.lapic LAPIC_ICRH) (u32 (id <<< ICR_DEST_BITS)) s
  let s2 := wr dev (.lapic LAPIC_ICRL)
    (vector ||| ICR_STARTUP ||| ICR_PHYSICAL ||| ICR_ASSERT ||| ICR_EDGE ||| ICR_NO_SHORTHAND) s1
  spin_until dev (.lapic LAPIC_ICRL) send_idle fuel s2

/-- Method `apic::enable_intr`. -/
def apic.enable_intr {σ : Type} (dev : Platform σ) (spurious_vector : Nat) (s : Sys σ) : Sys σ :=
  wr dev (.lapic LAPIC_SPURIOUS) (0x100 ||| u8 spurious_vector) s

/-- Function `APIC::eoi`. The `debug` line is compiled out. -/
def APIC.eoi {σ : Type} (dev : Platform σ) (s : Sys σ) : Sys σ :=
  wr dev (.lapic LAPIC_EOI) 0 s

/-- Function `APIC::enable`. -/
def APIC.enable {σ : Type} (dev : Platform σ) (s : Sys σ) : Sys σ :=
  let s := wr dev (.lapic LAPIC_TPR) 0xff s
  let s := wr dev (.lapic LAPIC_DFR) 0xffffffff s
  let s := wr dev (.lapic LAPIC_LDR) 0x01000000 s
  let s := wr dev (.lapic LAPIC_LVT_TMR) INTR_MASK s
  let s := wr dev (.lapic LAPIC_LVT_LINT0) (INTR_MASK ||| (LAPIC_IRQ_BASE + 3)) s
  let s := wr dev (.lapic LAPIC_LVT_LINT1) (INTR_MASK ||| (LAPIC_IRQ_BASE + 4)) s
  let s := wr dev (.lapic LAPIC_LVT_ERR) (INTR_MASK ||| (LAPIC_IRQ_BASE + 5)) s
  let SPURIOUS_IRQ := 0x7f
  let s := apic.enable_intr dev SPURIOUS_IRQ s
  let s := APIC.eoi dev s
  wr dev (.lapic LAPIC_TPR) 0 s

/-- Function `APIC::send_ipi`. -/
def APIC.send_ipi {σ : Type} (dev : Platform σ) (id : Nat) (vector : Nat) (s : Sys σ) : Sys σ :=
  let id := u8 id
  let vector := u8 vector
  let r := rd dev (.lapic LAPIC_ICRH) s
  let value := r.1 &&& 0x00ffffff
  let s1 := wr dev (.lapic LAPIC_ICRH) (value ||| u32 (id <<< 24)) r.2
  let value := ICR_ASSERT ||| ICR_FIXED ||| vector
  wr dev (.lapic LAPIC_ICRL) value s1

/-- Function `APIC::bcast_ipi`. -/
def APIC.bcast_ipi {σ : Type} (dev : Platform σ) (vector : Nat) (s : Sys σ) : Sys σ :=
  let vector := u8 vector
  wr dev (.lapic LAPIC_ICRL) (ICR_ALL_EXCLUDING_SELF ||| ICR_ASSERT ||| vector) s

/-! ## Reading a log -/

/-- The stores of a log, in order. -/
def writes : List Event → List (Loc × Nat)
  | [] => []
  | Event.wr l v :: rest => (l, v) :: writes rest
  | _ :: rest => writes rest

/-- Fields of the interrupt command register, low word. -/
def icr_vector (w : Nat) : Nat := w &&& 0xFF
def icr_delivery_mode (w : Nat) : Nat := (w >>> 8) &&& 0x7
def icr_destination_mode (w : Nat) : Nat := (w >>> 11) &&& 0x1
def icr_level (w : Nat) : Nat := (w >>> 14) &&& 0x1
def icr_trigger_mode (w : Nat) : Nat := (w >>> 15) &&& 0x1
def icr_shorthand (w : Nat) : Nat := (w >>> 18) &&& 0x3

/-- Destination field of the interrupt command register, high word. -/
def icr_destination (w : Nat) : Nat := (w >>> 24) &&& 0xFF

/-- The protocol of an interrupt command: one store to command-high, one store
to command-low, then a completed busy-wait on the send-pending bit of
command-low. -/
def icr_protocol : List Event → Bool
  | Event.wr a _ :: Event.wr b _ :: rest =>
    decide (a = .lapic LAPIC_ICRH) && decide (b = .lapic LAPIC_ICRL) &&
      spin_trace (.lapic LAPIC_ICRL) send_idle rest
  | _ => false

/-- What it means for a run `run` started in `s` to follow the command
protocol with high word `hi` and low word `lo`: its stores are `hi` to
command-high and then `lo` to command-low; if it returns, its events are those
two stores and a completed busy-wait on command-low; if it does not, it is
still re-reading command-low; and it returns exactly when one of the first
`fuel` reads of command-low after the two stores shows send-pending clear. -/
def FollowsIcrProtocol {σ : Type} (dev : Platform σ) (fuel : Nat) (s : Sys σ) (hi lo : Nat)
    (run : Run σ) : Prop :=
  writes (final run).log = writes s.log ++ [(.lapic LAPIC_ICRH, hi), (.lapic LAPIC_ICRL, lo)] ∧
  (∀ s', run = .ok s' → ∃ evs, s'.log = s.log ++ evs ∧ icr_protocol evs = true) ∧
  (∀ e, run = .error e → e.1 = Stop.spinning ∧
    ∃ evs, e.2.log = s.log ++ Event.wr (.lapic LAPIC_ICRH) hi :: Event.wr (.lapic LAPIC_ICRL) lo :: evs ∧
      stuck_trace (.lapic LAPIC_ICRL) send_idle evs = true ∧ evs.length = fuel) ∧
  ((∃ s', run = .ok s') ↔
    ∃ k < fuel, send_idle (poll dev (.lapic LAPIC_ICRL) k
      (dev.store (dev.store s.hw (.lapic LAPIC_ICRH) hi) (.lapic LAPIC_ICRL) lo)) = true)

/-! ## Barrier -/

/-- Modelled from the spec: the barrier type is declared outside the two files.
`reset(n)` sets the internal counter to `n`. -/
def barrier.reset {σ : Type} (dev : Platform σ) (b : Loc) (n : Nat) (s : Sys σ) : Sys σ :=
  wr dev b n { s with log := s.log ++ [Event.reset b n] }

/-- Condition that ends `spin_wait(target)`. -/
def arrived (target : Nat) (v : Nat) : Bool := decide (target ≤ v)

/-- Modelled from the spec: the barrier type is declared outside the two files.
`spin_wait(target)` busy-loops re-reading the counter until it is `>= target`. -/
def barrier.spin_wait {σ : Type} (dev : Platform σ) (fuel : Nat) (b : Loc) (target : Nat)
    (s : Sys σ) : Run σ :=
  spin_until dev b (arrived target) fuel { s with log := s.log ++ [Event.spin_wait b target] }

/-! ## Firmware tables -/

/-- Modelled from the spec: one entry of the list of usable cores returned by
`ACPI::get_cpus()`, with its identifier and flags; the type is declared outside
the two files. -/
structure LAPIC where
  cpu : Nat
  id : Nat
  flags : Nat
  deriving DecidableEq, Repr

/-- Modelled from the spec: one legacy-IRQ override entry returned by
`ACPI::get_overrides()`; the type is declared outside the two files. -/
structure override_t where
  bus_source : Nat
  irq_source : Nat
  global_intr : Nat
  flags : Nat
  deriving DecidableEq, Repr

/-- Addresses and sizes fixed when the kernel image is linked. -/
structure Image where
  _binary_apic_boot_bin_start : Nat
  _binary_apic_boot_bin_end : Nat
  lapic_exception_handler : Nat
  lapic_irq_entry : Nat
  revenant_main : Nat
  REV_STACK_SIZE : Nat
  sizeof_IDTDescr : Nat

/-! ## Bring-up of the other cores -/

/-- One of the two loops of `APIC::init_smp` that fill the table `idt`: `n`
entries starting at `i`, all pointing at `handler`. -/
def idt_fill {σ : Type} (dev : Platform σ) (handler : Nat) : Nat → Nat → Sys σ → Sys σ
  | 0, _, s => s
  | n + 1, i, s =>
    let whole := u32 handler
    let s := wr dev (.idt i .offset_1) (whole % 2 ^ 16) s
    let s := wr dev (.idt i .offset_2) (whole / 2 ^ 16) s
    let s := wr dev (.idt i .selector) 0x8 s
    let s := wr dev (.idt i .type_attr) 0x8e s
    let s := wr dev (.idt i .zero) 0 s
    idt_fill dev handler n (i + 1) s

/-- The loop "turn on CPUs" of `APIC::init_smp`, over the cores that are left. -/
def init_aps {σ : Type} (dev : Platform σ) (fuel : Nat) : List LAPIC → Sys σ → Run σ
  | [], s => .ok s
  | cpu :: rest, s =>
    let r := apic.get_id dev s
    if cpu.id ≠ r.1 then
      (apic.ap_init dev fuel cpu.id r.2).bind (init_aps dev fuel rest)
    else init_aps dev fuel rest r.2

/-- The loop "start CPUs" of `APIC::init_smp`, over the cores that are left. -/
def start_aps {σ : Type} (dev : Platform σ) (fuel : Nat) : List LAPIC → Sys σ → Run σ
  | [], s => .ok s
  | cpu :: rest, s =>
    let r := apic.get_id dev s
    if cpu.id = r.1 then start_aps dev fuel rest r.2
    else
      (apic.ap_start dev fuel cpu.id 0x80 r.2).bind fun s1 =>
      (apic.ap_start dev fuel cpu.id 0x80 s1).bind (start_aps dev fuel rest)

/-- Function `APIC::init_smp`; `cpus` is what `ACPI::get_cpus()` returns. -/
def APIC.init_smp {σ : Type} (dev : Platform σ) (fuel : Nat) (img : Image) (cpus : List LAPIC)
    (s : Sys σ) : Run σ :=
  if ¬ cpus.length > 1 then .error (Stop.assert_failed, s) else
  let start := img._binary_apic_boot_bin_start
  let bootloader_size := img._binary_apic_boot_bin_end - start
  let s := (ext dev (.memcpy BOOTLOADER_LOCATION start bootloader_size) s).2
  let s := wr dev .idt_limit (256 * img.sizeof_IDTDescr - 1) s
  let p := ext dev (.new_IDTDescr 256) s
  let s := wr dev .idt_base p.1 p.2
  let s := idt_fill dev img.lapic_exception_handler 32 0 s
  let s := idt_fill dev img.lapic_irq_entry 16 32 s
  let CPUcount := cpus.length
  let s := wr dev .boot_worker_addr img.revenant_main s
  let p := ext dev (.aligned_alloc (CPUcount * img.REV_STACK_SIZE) 4096) s
  let s := wr dev .boot_stack_base p.1 p.2
  let s := wr dev .boot_stack_size img.REV_STACK_SIZE s
  let s := barrier.reset dev .boot_barrier 1 s
  (init_aps dev fuel cpus s).bind fun s =>
  (start_aps dev fuel cpus s).bind fun s =>
  barrier.spin_wait dev fuel .boot_barrier CPUcount s

/-! ## Task dispatch and IRQ routing -/

/-- Function `APIC::start_task`; `task` and `done` are the two function
pointers, `cpus` is what `ACPI::get_cpus()` returns. -/
def APIC.start_task {σ : Type} (dev : Platform σ) (fuel : Nat) (cpus : List LAPIC)
    (task done : Nat) (s : Sys σ) : Run σ :=
  let s := wr dev .task_func task s
  let s := wr dev .done_func done s
  let s := barrier.reset dev .task_barrier 1 s
  let s := APIC.bcast_ipi dev 0x20 s
  let c := ext dev .get_cpu_id s
  let s := (ext dev (.invoke task c.1) c.2).2
  (barrier.spin_wait dev fuel .task_barrier cpus.length s).bind fun s =>
  .ok (ext dev (.invoke_done done) s).2

/-- Function `APIC::enable_irq`, with the overrides the loop has still to look
at. Each `INFO2` line evaluates `lapic.get_id()` for its text, and the call of
`IOAPIC::enable` evaluates it again. -/
def APIC.enable_irq {σ : Type} (dev : Platform σ) : List override_t → Nat → Sys σ → Sys σ
  | [], irq, s =>
    let irq := u8 irq
    let i := apic.get_id dev s
    let r := apic.get_id dev i.2
    (ext dev (.ioapic_enable irq irq r.1) r.2).2
  | redir :: rest, irq, s =>
    if redir.irq_source = u8 irq then
      let i := apic.get_id dev s
      let r := apic.get_id dev i.2
      (ext dev (.ioapic_enable redir.global_intr (u8 irq) r.1) r.2).2
    else APIC.enable_irq dev rest irq s

/-! ## A platform for running the code -/

/-- Plain memory with the identifier register of a local APIC wired to `self`. -/
def mock (self : Nat) : Platform (Loc → Nat) where
  load := fun m l => if l = .lapic LAPIC_ID then (self <<< 24, m) else (m l, m)
  store := fun m l v => Function.update m l v
  call := fun m _ => (0, m)

/-- The identifier register of `dev` reads `self` in every state. -/
def HasId {σ : Type} (dev : Platform σ) (self : Nat) : Prop :=
  ∀ h : σ, (u32 (dev.load h (.lapic LAPIC_ID)).1 >>> 24) &&& 0xFF = self

/-- Every command word stored in command-low is out of send-pending within
`fuel` reads. -/
def Responsive {σ : Type} (dev : Platform σ) (fuel : Nat) : Prop :=
  ∀ (h : σ) (v : Nat), v &&& ICR_SEND_PENDING = 0 →
    ∃ k < fuel, send_idle (poll dev (.lapic LAPIC_ICRL) k (dev.store h (.lapic LAPIC_ICRL) v)) = true

/-- Events of a log that are interrupt commands or barrier calls: stores to
command-high and command-low, and the entries into `reset` and `spin_wait`. -/
def is_command : Event → Bool
  | Event.wr l _ => decide (l = .lapic LAPIC_ICRH) || decide (l = .lapic LAPIC_ICRL)
  | Event.reset _ _ => true
  | Event.spin_wait _ _ => true
  | _ => false

/-- The interrupt commands and barrier calls of a log, in order. -/
def commands (evs : List Event) : List Event := evs.filter is_command

/-- A store of a STARTUP command to command-low. -/
def is_startup : Event → Bool
  | Event.wr l v => decide (l = .lapic LAPIC_ICRL) && decide (icr_delivery_mode v = 0b110)
  | _ => false

/-- The calls of `IOAPIC::enable` in a log, with their three arguments. -/
def ioapic_enables : List Event → List (Nat × Nat × Nat)
  | [] => []
  | Event.ext (.ioapic_enable a b c) _ :: rest => (a, b, c) :: ioapic_enables rest
  | _ :: rest => ioapic_enables rest

/-- High word of a command for target `id`. -/
def dest_word (id : Nat) : Nat := u32 (u8 id <<< ICR_DEST_BITS)

/-- One INIT command per core of the list: destination, then the INIT word. -/
def init_commands : List LAPIC → List Event
  | [] => []
  | c :: rest =>
    Event.wr (.lapic LAPIC_ICRH) (dest_word c.id) :: Event.wr (.lapic LAPIC_ICRL) 0x4500 ::
      init_commands rest

/-- One pair of STARTUP commands per core of the list, each a destination and
then the STARTUP word with start vector 0x80. -/
def startup_commands : List LAPIC → List Event
  | [] => []
  | c :: rest =>
    Event.wr (.lapic LAPIC_ICRH) (dest_word c.id) :: Event.wr (.lapic LAPIC_ICRL) 0x4680 ::
    Event.wr (.lapic LAPIC_ICRH) (dest_word c.id) :: Event.wr (.lapic LAPIC_ICRL) 0x4680 ::
      startup_commands rest

/-- Four cores with identifiers 0, 1, 2, 3. -/
def four_cores : List LAPIC :=
  [⟨0, 0, 1⟩, ⟨1, 1, 1⟩, ⟨2, 2, 1⟩, ⟨3, 3, 1⟩]

/-- An image to run the bring-up on. -/
def sample_image : Image where
  _binary_apic_boot_bin_start := 0x200000
  _binary_apic_boot_bin_end := 0x200100
  lapic_exception_handler := 0x101000
  lapic_irq_entry := 0x102000
  revenant_main := 0x103000
  REV_STACK_SIZE := 8192
  sizeof_IDTDescr := 8

/-- Whether a run returned. -/
def returned {σ : Type} : Run σ → Bool
  | .ok _ => true
  | .error _ => false

/-- State of a simulated machine: memory, and the cores that have been started. -/
structure Smp where
  mem : Loc → Nat
  started : List Nat

/-- A simulated machine of `n` cores seen from core `self`. A broadcast to
all-excluding-self makes the other `n - 1` cores run the task and arrive at the
task barrier; the first STARTUP command for a core makes it boot and arrive at
the boot barrier. -/
def smp (self n : Nat) : Platform Smp where
  load := fun h l => if l = .lapic LAPIC_ID then (self <<< 24, h) else (h.mem l, h)
  store := fun h l v =>
    let mem := Function.update h.mem l v
    let target := icr_destination (mem (.lapic LAPIC_ICRH))
    if l = .lapic LAPIC_ICRL then
      if icr_shorthand v = 0b11 then
        { h with mem := Function.update mem .task_barrier (mem .task_barrier + (n - 1)) }
      else if icr_delivery_mode v = 0b110 ∧ target ∉ h.started then
        { mem := Function.update mem .boot_barrier (mem .boot_barrier + 1),
          started := target :: h.started }
      else { h with mem := mem }
    else { h with mem := mem }
  call := fun h c =>
    match c with
    | .get_cpu_id => (self, h)
    | .new_IDTDescr _ => (0x400000, h)
    | .aligned_alloc _ _ => (0x500000, h)
    | _ => (0, h)

/-! ## Views of a register state -/

/-- The eight words of the vector register that starts at `reg`. -/
def vector_slots (m : Loc → Nat) (reg : Nat) : List Nat :=
  (List.range 8).map fun i => u32 (m (.lapic (reg + slot i)))

/-- Bit `b` of the vector register at `reg`: slot `b >> 5`, position `b & 31`. -/
def vector_bit (m : Loc → Nat) (reg : Nat) (b : Nat) : Bool :=
  (m (.lapic (reg + slot (b >>> 5)))).testBit (b &&& 0x1f)

/-- Property of a function `get` that scans the vector register at `reg` for
its lowest set bit: zero for an all-zero register, otherwise the
lowest set bit; and after setting bit `b` in an all-zero register, `b`. -/
def LowestSetBit (get : Sys (Loc → Nat) → Nat × Sys (Loc → Nat)) (reg : Nat) : Prop :=
  ∀ (m : Loc → Nat) (log : List Event),
    ((∀ i < 8, u32 (m (.lapic (reg + slot i))) = 0) → (get ⟨m, log⟩).1 = 0) ∧
    ((¬ ∀ i < 8, u32 (m (.lapic (reg + slot i))) = 0) →
      (get ⟨m, log⟩).1 ≤ 255 ∧ vector_bit m reg (get ⟨m, log⟩).1 = true ∧
      ∀ b < (get ⟨m, log⟩).1, vector_bit m reg b = false) ∧
    ((∀ i < 8, u32 (m (.lapic (reg + slot i))) = 0) →
      ∀ b ≤ 255, (get (apic.set ram reg b ⟨m, log⟩)).1 = b)

end hw

/-! ## The mmap emulation, `src/musl/mmap.cpp` -/

/-- The allocator behind `alloc`, an `Lstack<4096>` declared outside the file:
`allocate(size)` gives a pointer, or a null pointer on failure. -/
structure Allocator (α : Type) where
  allocate : α → Nat → Nat × α
  deallocate : α → Nat → Nat → α

/-- What the emulation works on: the allocator state, `errno`, and the sizes of
the calls of `allocate` so far. -/
structure Heap (α : Type) where
  alloc : α
  errno : Int
  calls : List Nat

/-- How a call ends: it returns a pointer, or stops on a failed `assert`. -/
inductive Outcome
  | returned (p : Nat)
  | assert_failed
  deriving DecidableEq, Repr

/-- The constant `MAP_FAILED`, `(void *) -1`, for pointers of `bits` bits. -/
def MAP_FAILED (bits : Nat) : Nat := 2 ^ bits - 1

/-- The constant `ENODEV` of `errno.h`. -/
def ENODEV : Int := 19

/-- Function `__kalloc`. -/
def __kalloc {α : Type} (A : Allocator α) (size : Nat) (st : Heap α) : Nat × Heap α :=
  let r := A.allocate st.alloc size
  (r.1, { st with alloc := r.2, calls := st.calls ++ [size] })

set_option linter.unusedVariables false in
/-- Function `syscall_SYS_mmap`. `NDEBUG` says whether `assert` is compiled out. -/
def syscall_SYS_mmap {α : Type} (NDEBUG : Bool) (bits : Nat) (A : Allocator α)
    (addr length : Nat) (prot flags fd offset : Int) (st : Heap α) : Outcome × Heap α :=
  if fd > 0 ∧ NDEBUG = false then (Outcome.assert_failed, st)
  else if addr ≠ 0 then (Outcome.returned (MAP_FAILED bits), { st with errno := ENODEV })
  else
    let res := __kalloc A length st
    (Outcome.returned res.1, res.2)

/-- An allocator that hands out consecutive addresses. -/
def bump : Allocator Nat where
  allocate := fun top size => (top, top + size)
  deallocate := fun top _ _ => top

/-! # Theorems -/

namespace hw

theorem writes_append (a b : List Event) : writes (a ++ b) = writes a ++ writes b := by
  induction a with
  | nil => rfl
  | cons e a ih => cases e <;> simp [writes, ih]

theorem writes_of_stuck_trace (l : Loc) (stop : Nat → Bool) :
    ∀ evs, stuck_trace l stop evs = true → writes evs = [] := by
  intro evs
  induction evs with
  | nil => intro _; rfl
  | cons e evs ih =>
    cases e <;> simp [stuck_trace, writes]
    intro _ _ h
    exact ih h

theorem writes_of_spin_trace (l : Loc) (stop : Nat → Bool) :
    ∀ evs, spin_trace l stop evs = true → writes evs = [] := by
  intro evs
  induction evs with
  | nil => intro _; rfl
  | cons e evs ih =>
    cases e with
    | rd a v =>
      cases evs with
      | nil => intro _; rfl
      | cons e2 evs2 =>
        intro h
        simp only [spin_trace, Bool.and_eq_true] at h
        simp only [writes]
        exact ih h.2
    | wr a v => intro h; simp [spin_trace] at h
    | ext c r => intro h; simp [spin_trace] at h
    | reset b n => intro h; simp [spin_trace] at h
    | spin_wait b n => intro h; simp [spin_trace] at h

/-- A busy-wait adds only reads of its location to the log; if it returns the
last read satisfied the condition and no earlier one did; if not, none did and
the fuel is used up. -/
theorem spin_until_log {σ : Type} (dev : Platform σ) (l : Loc) (stop : Nat → Bool) :
    ∀ (fuel : Nat) (s : Sys σ),
      (∃ s' evs, spin_until dev l stop fuel s = .ok s' ∧ s'.log = s.log ++ evs ∧
        spin_trace l stop evs = true ∧ evs.length ≤ fuel) ∨
      (∃ s' evs, spin_until dev l stop fuel s = .error (Stop.spinning, s') ∧
        s'.log = s.log ++ evs ∧ stuck_trace l stop evs = true ∧ evs.length = fuel) := by
  intro fuel
  induction fuel with
  | zero =>
    intro s
    exact Or.inr ⟨s, [], rfl, by simp, rfl, rfl⟩
  | succ fuel ih =>
    intro s
    by_cases hstop : stop (rd dev l s).1 = true
    · refine Or.inl ⟨(rd dev l s).2, [Event.rd l (rd dev l s).1], ?_, ?_, ?_, ?_⟩
      · simp [spin_until, hstop]
      · simp [rd]
      · simp [spin_trace, hstop]
      · simp
    · have hstep : spin_until dev l stop (fuel + 1) s = spin_until dev l stop fuel (rd dev l s).2 := by
        simp [spin_until, hstop]
      have hlog : (rd dev l s).2.log = s.log ++ [Event.rd l (rd dev l s).1] := by simp [rd]
      rw [hstep]
      rcases ih (rd dev l s).2 with ⟨s', evs, h1, h2, h3, h4⟩ | ⟨s', evs, h1, h2, h3, h4⟩
      · refine Or.inl ⟨s', Event.rd l (rd dev l s).1 :: evs, h1, ?_, ?_, ?_⟩
        · rw [h2, hlog]; simp
        · cases evs with
          | nil => simp [spin_trace] at h3
          | cons e evs =>
            simp only [spin_trace, Bool.and_eq_true]
            simp only [Bool.not_eq_true] at hstop
            simp [hstop, h3]
        · simp; omega
      · refine Or.inr ⟨s', Event.rd l (rd dev l s).1 :: evs, h1, ?_, ?_, ?_⟩
        · rw [h2, hlog]; simp
        · simp only [Bool.not_eq_true] at hstop
          simp [stuck_trace, hstop, h3]
        · simp; omega

/-- A busy-wait returns exactly when one of the first `fuel` reads satisfies
the condition. -/
theorem spin_until_returns {σ : Type} (dev : Platform σ) (l : Loc) (stop : Nat → Bool) :
    ∀ (fuel : Nat) (s : Sys σ),
      (∃ s', spin_until dev l stop fuel s = .ok s') ↔
        ∃ k < fuel, stop (poll dev l k s.hw) = true := by
  intro fuel
  induction fuel with
  | zero => intro s; simp [spin_until]
  | succ fuel ih =>
    intro s
    by_cases hstop : stop (rd dev l s).1 = true
    · constructor
      · intro _
        exact ⟨0, Nat.succ_pos _, by simpa [poll, rd] using hstop⟩
      · intro _
        exact ⟨(rd dev l s).2, by simp [spin_until, hstop]⟩
    · have hstep : spin_until dev l stop (fuel + 1) s = spin_until dev l stop fuel (rd dev l s).2 := by
        simp [spin_until, hstop]
      rw [hstep, ih]
      constructor
      · rintro ⟨k, hk, h⟩
        exact ⟨k + 1, by omega, by simpa [poll, rd] using h⟩
      · rintro ⟨k, hk, h⟩
        cases k with
        | zero => exact absurd (by simpa [poll, rd] using h) hstop
        | succ k => exact ⟨k, by omega, by simpa [poll, rd] using h⟩


theorem testBit_u32 (x i : Nat) : (u32 x).testBit i = (decide (i < 32) && x.testBit i) := by
  unfold u32
  rw [Nat.testBit_mod_two_pow]

theorem u32_idem (x : Nat) : u32 (u32 x) = u32 x := by
  unfold u32; exact Nat.mod_mod _ _

theorem and_31_lt (b : Nat) : b &&& 0x1f < 32 := by
  have : b &&& 0x1f ≤ 0x1f := Nat.and_le_right
  omega

theorem and_31_eq (b : Nat) : b &&& 0x1f = b % 32 := by
  have := Nat.and_pow_two_sub_one_eq_mod b 5
  simpa using this

theorem shr_5_eq (b : Nat) : b >>> 5 = b / 32 := by
  rw [Nat.shiftRight_eq_div_pow]

theorem testBit_set_mask (k i : Nat) (hk : k < 32) :
    (u32 (1 <<< k)).testBit i = decide (k = i) := by
  rw [testBit_u32, Nat.one_shiftLeft, Nat.testBit_two_pow]
  by_cases h : k = i
  · subst h; simp [hk]
  · simp [h]

theorem testBit_clr_mask (k i : Nat) (hk : k < 32) :
    (not32 (1 <<< k)).testBit i = (decide (i < 32) && !decide (k = i)) := by
  unfold not32
  rw [Nat.testBit_xor, Nat.testBit_two_pow_sub_one, testBit_set_mask k i hk]
  by_cases h : k = i
  · subst h; simp [hk]
  · simp [h]


/-- Memory after `apic::set` then `apic::clr` on plain memory. -/
theorem set_clr_hw (m : Loc → Nat) (log : List Event) (reg bit : Nat) :
    (apic.clr ram reg bit (apic.set ram reg bit ⟨m, log⟩)).hw =
      Function.update m (.lapic (reg + slot (u8 bit >>> 5)))
        (u32 (u32 (m (.lapic (reg + slot (u8 bit >>> 5)))) ||| u32 (1 <<< (u8 bit &&& 0x1f)))
          &&& not32 (1 <<< (u8 bit &&& 0x1f))) := by
  simp [apic.clr, apic.set, rd, wr, ram]

theorem set_clr_word (x k : Nat) (hk : k < 32) :
    u32 (u32 (u32 x ||| u32 (1 <<< k)) &&& not32 (1 <<< k)) = u32 x ↔ x.testBit k = false := by
  constructor
  · intro h
    have := congrArg (fun w => w.testBit k) h
    simp only [testBit_u32, Nat.testBit_and, Nat.testBit_or, testBit_set_mask k k hk,
      testBit_clr_mask k k hk] at this
    simpa [hk] using this.symm
  · intro h
    apply Nat.eq_of_testBit_eq
    intro i
    simp only [testBit_u32, Nat.testBit_and, Nat.testBit_or, testBit_set_mask k i hk,
      testBit_clr_mask k i hk]
    by_cases hik : k = i
    · subst hik; simp [h]
    · by_cases h32 : i < 32 <;> simp [hik, h32]

theorem vector_slots_eq_iff (m m2 : Loc → Nat) (reg : Nat) :
    vector_slots m2 reg = vector_slots m reg ↔
      ∀ i < 8, u32 (m2 (.lapic (reg + slot i))) = u32 (m (.lapic (reg + slot i))) := by
  unfold vector_slots
  constructor
  · intro h i hi
    have := congrArg (fun l => l.get? i) h
    simpa [List.getElem?_map, List.getElem?_range hi] using this
  · intro h
    apply List.map_congr_left
    intro i hi
    exact h i (List.mem_range.mp hi)

theorem set_clr_restores (m : Loc → Nat) (log : List Event) (reg bit : Nat) (h : bit < 256) :
    vector_slots (apic.clr ram reg bit (apic.set ram reg bit ⟨m, log⟩)).hw reg = vector_slots m reg
      ↔ vector_bit m reg bit = false := by
  have hb : u8 bit = bit := Nat.mod_eq_of_lt h
  have hk := and_31_lt bit
  have hi : bit >>> 5 < 8 := by rw [shr_5_eq]; omega
  rw [set_clr_hw, vector_slots_eq_iff, hb]
  unfold vector_bit
  rw [← set_clr_word _ _ hk]
  constructor
  · intro hall
    have := hall _ hi
    simpa using this
  · intro hw i _
    by_cases hi2 : i = bit >>> 5
    · subst hi2; simpa using hw
    · have : Loc.lapic (reg + slot i) ≠ Loc.lapic (reg + slot (bit >>> 5)) := by
        intro hc
        injection hc with hc
        unfold slot at hc
        omega
      rw [Function.update_noteq this]


theorem ctz_from_spec (x : Nat) : ∀ n k : Nat,
    k ≤ ctz_from n k x ∧ ctz_from n k x ≤ k + n ∧
    (∀ j, k ≤ j → j < ctz_from n k x → x.testBit j = false) ∧
    (ctz_from n k x < k + n → x.testBit (ctz_from n k x) = true) := by
  intro n
  induction n with
  | zero => intro k; simp [ctz_from]; intro j h1 h2; omega
  | succ n ih =>
    intro k
    unfold ctz_from
    by_cases hb : x.testBit k = true
    · simp only [hb, if_true]
      refine ⟨le_refl _, by omega, ?_, ?_⟩
      · intro j h1 h2; omega
      · intro _; trivial
    · simp only [hb]
      obtain ⟨h1, h2, h3, h4⟩ := ih (k + 1)
      refine ⟨by simp; omega, by simp; omega, ?_, ?_⟩
      · intro j hj1 hj2
        by_cases hjk : j = k
        · subst hjk; simpa using hb
        · exact h3 j (by omega) (by simpa using hj2)
      · intro hlt
        simp only [Bool.false_eq_true, if_false] at hlt ⊢
        exact h4 (by omega)

theorem ctz_word (x : Nat) (hx : u32 x ≠ 0) :
    ctz_from 32 0 (u32 x) < 32 ∧ x.testBit (ctz_from 32 0 (u32 x)) = true ∧
    ∀ j < ctz_from 32 0 (u32 x), x.testBit j = false := by
  obtain ⟨_, h2, h3, h4⟩ := ctz_from_spec (u32 x) 32 0
  have hlt : ctz_from 32 0 (u32 x) < 32 := by
    by_contra hc
    apply hx
    apply Nat.eq_of_testBit_eq
    intro i
    rw [Nat.zero_testBit]
    by_cases hi : i < 32
    · exact h3 i (Nat.zero_le _) (by omega)
    · rw [testBit_u32]; simp [hi]
  refine ⟨hlt, ?_, ?_⟩
  · have := h4 (by omega)
    rw [testBit_u32] at this
    simpa [hlt] using this
  · intro j hj
    have := h3 j (Nat.zero_le _) hj
    rw [testBit_u32] at this
    have hj32 : j < 32 := by omega
    simpa [hj32] using this

theorem u32_eq_zero_iff (x : Nat) : u32 x = 0 ↔ ∀ j < 32, x.testBit j = false := by
  constructor
  · intro h j hj
    have := congrArg (fun w => w.testBit j) h
    simpa [testBit_u32, hj] using this
  · intro h
    apply Nat.eq_of_testBit_eq
    intro i
    rw [Nat.zero_testBit, testBit_u32]
    by_cases hi : i < 32
    · simp [h i hi]
    · simp [hi]

/-- What the scan of `first_vector` returns on plain memory. -/
theorem first_vector_ram (m : Loc → Nat) (reg : Nat) : ∀ (n i : Nat) (log : List Event),
    i + n = 8 →
    ((∀ j, i ≤ j → j < 8 → u32 (m (.lapic (reg + slot j))) = 0) →
      (first_vector ram reg n i ⟨m, log⟩).1 = 0) ∧
    ((∃ j, i ≤ j ∧ j < 8 ∧ u32 (m (.lapic (reg + slot j))) ≠ 0) →
      (first_vector ram reg n i ⟨m, log⟩).1 < 256 ∧
      vector_bit m reg (first_vector ram reg n i ⟨m, log⟩).1 = true ∧
      ∀ b, 32 * i ≤ b → b < (first_vector ram reg n i ⟨m, log⟩).1 → vector_bit m reg b = false) := by
  intro n
  induction n with
  | zero =>
    intro i log hi
    refine ⟨fun _ => rfl, ?_⟩
    rintro ⟨j, h1, h2, _⟩
    omega
  | succ n ih =>
    intro i log hi
    have hi8 : i < 8 := by omega
    have hu8 : u8 (i + 1) = i + 1 := Nat.mod_eq_of_lt (by omega)
    by_cases hz : u32 (m (.lapic (reg + slot i))) = 0
    · have hstep : first_vector ram reg (n + 1) i ⟨m, log⟩ =
          first_vector ram reg n (i + 1)
            ⟨m, log ++ [Event.rd (.lapic (reg + slot i)) (u32 (m (.lapic (reg + slot i))))]⟩ := by
        simp [first_vector, rd, ram, hz, hu8]
      rw [hstep]
      obtain ⟨ih1, ih2⟩ := ih (i + 1) (log ++ [Event.rd (.lapic (reg + slot i))
        (u32 (m (.lapic (reg + slot i))))]) (by omega)
      constructor
      · intro hall
        exact ih1 (fun j h1 h2 => hall j (by omega) h2)
      · rintro ⟨j, h1, h2, h3⟩
        have hji : j ≠ i := by rintro rfl; exact h3 hz
        obtain ⟨r1, r2, r3⟩ := ih2 ⟨j, by omega, h2, h3⟩
        refine ⟨r1, r2, ?_⟩
        intro b hb1 hb2
        by_cases hb : 32 * (i + 1) ≤ b
        · exact r3 b hb hb2
        · unfold vector_bit
          rw [shr_5_eq, and_31_eq]
          have hbi : b / 32 = i := by omega
          rw [hbi]
          exact (u32_eq_zero_iff _).mp hz _ (Nat.mod_lt _ (by norm_num))
    · obtain ⟨c1, c2, c3⟩ := ctz_word (m (.lapic (reg + slot i))) hz
      have hstep : (first_vector ram reg (n + 1) i ⟨m, log⟩).1 =
          32 * i + ctz_from 32 0 (u32 (m (.lapic (reg + slot i)))) := by
        simp only [first_vector, rd, ram, ne_eq, hz, not_false_eq_true, if_true, builtin_ffs,
          u32_idem, if_false, int_to_u8]
        omega
      rw [hstep]
      constructor
      · intro hall
        exact absurd (hall i (le_refl _) hi8) hz
      · intro _
        refine ⟨by omega, ?_, ?_⟩
        · unfold vector_bit
          rw [shr_5_eq, and_31_eq]
          have h1 : (32 * i + ctz_from 32 0 (u32 (m (.lapic (reg + slot i))))) / 32 = i := by omega
          have h2 : (32 * i + ctz_from 32 0 (u32 (m (.lapic (reg + slot i))))) % 32 =
              ctz_from 32 0 (u32 (m (.lapic (reg + slot i)))) := by omega
          rw [h1, h2]; exact c2
        · intro b hb1 hb2
          unfold vector_bit
          rw [shr_5_eq, and_31_eq]
          have h1 : b / 32 = i := by omega
          rw [h1]
          exact c3 _ (by omega)


theorem set_hw (m : Loc → Nat) (log : List Event) (reg bit : Nat) :
    (apic.set ram reg bit ⟨m, log⟩).hw =
      Function.update m (.lapic (reg + slot (u8 bit >>> 5)))
        (u32 (m (.lapic (reg + slot (u8 bit >>> 5)))) ||| u32 (1 <<< (u8 bit &&& 0x1f))) := by
  simp [apic.set, rd, wr, ram]

/-- After `apic::set` on a register whose eight words are zero, exactly one bit is set. -/
theorem vector_bit_after_set (m : Loc → Nat) (log : List Event) (reg b : Nat) (hb : b < 256)
    (hz : ∀ i < 8, u32 (m (.lapic (reg + slot i))) = 0) (c : Nat) (hc : c < 256) :
    vector_bit (apic.set ram reg b ⟨m, log⟩).hw reg c = decide (c = b) := by
  have hu : u8 b = b := Nat.mod_eq_of_lt hb
  rw [set_hw, hu]
  unfold vector_bit
  have hk := and_31_lt b
  have hbi : b >>> 5 < 8 := by rw [shr_5_eq]; omega
  have hci : c >>> 5 < 8 := by rw [shr_5_eq]; omega
  by_cases hs : c >>> 5 = b >>> 5
  · rw [hs, Function.update_same, Nat.testBit_or, hz _ hbi, Nat.zero_testBit,
      testBit_set_mask _ _ hk]
    rw [shr_5_eq, shr_5_eq] at hs
    rw [and_31_eq, and_31_eq]
    by_cases hcb : c = b
    · subst hcb; simp
    · have : ¬ b % 32 = c % 32 := by omega
      simp [hcb, this]
  · have hne : Loc.lapic (reg + slot (c >>> 5)) ≠ Loc.lapic (reg + slot (b >>> 5)) := by
      intro h
      injection h with h
      unfold slot at h
      omega
    rw [Function.update_noteq hne]
    have hcb : c ≠ b := by rintro rfl; exact hs rfl
    have := (u32_eq_zero_iff _).mp (hz _ hci) (c &&& 0x1f) (and_31_lt c)
    simp [this, hcb]

theorem first_vector_after_set (m : Loc → Nat) (log : List Event) (reg b : Nat) (hb : b < 256)
    (hz : ∀ i < 8, u32 (m (.lapic (reg + slot i))) = 0) :
    (first_vector ram reg 8 0 (apic.set ram reg b ⟨m, log⟩)).1 = b := by
  have hspec := (first_vector_ram (apic.set ram reg b ⟨m, log⟩).hw reg 8 0
    (apic.set ram reg b ⟨m, log⟩).log rfl).2
  have hbit := vector_bit_after_set m log reg b hb hz
  have hex : ∃ j, 0 ≤ j ∧ j < 8 ∧
      u32 ((apic.set ram reg b ⟨m, log⟩).hw (.lapic (reg + slot j))) ≠ 0 := by
    refine ⟨b >>> 5, Nat.zero_le _, by rw [shr_5_eq]; omega, ?_⟩
    intro h0
    have h1 := (u32_eq_zero_iff _).mp h0 (b &&& 0x1f) (and_31_lt b)
    have h2 := hbit b hb
    unfold vector_bit at h2
    rw [h1] at h2
    simp at h2
  obtain ⟨r1, r2, _⟩ := hspec hex
  have := hbit _ r1
  rw [r2] at this
  simpa using this.symm


theorem first_vector_lowest (reg : Nat) : LowestSetBit (first_vector ram reg 8 0) reg := by
  intro m log
  have hspec := first_vector_ram m reg 8 0 log rfl
  refine ⟨fun hz => hspec.1 (fun j _ hj => hz j hj), ?_, ?_⟩
  · intro hnz
    have hex : ∃ j, 0 ≤ j ∧ j < 8 ∧ u32 (m (.lapic (reg + slot j))) ≠ 0 := by
      by_contra hc
      apply hnz
      intro i hi
      by_contra hne
      exact hc ⟨i, Nat.zero_le _, hi, hne⟩
    obtain ⟨r1, r2, r3⟩ := hspec.2 hex
    exact ⟨by omega, r2, fun b hb => r3 b (Nat.zero_le _) hb⟩
  · intro hz b hb
    exact first_vector_after_set m log reg b (by omega) hz

/-- C7, amended: on plain memory, for every state of a vector register and every
bit below 256, `apic::set` followed by `apic::clr` with the same bit gives back
the eight words the register had before exactly when the bit was clear before. -/
theorem set_then_clr_restores_iff_clear (m : Loc → Nat) (log : List Event) (reg bit : Nat)
    (h : bit < 256) :
    vector_slots (apic.clr ram reg bit (apic.set ram reg bit ⟨m, log⟩)).hw reg = vector_slots m reg
      ↔ vector_bit m reg bit = false :=
  set_clr_restores m log reg bit h

/-- C7, amended, at bit 37 of an all-zero request register. -/
theorem set_then_clr_restores_iff_clear_witness :
    37 < 256 ∧
    (vector_slots (apic.clr ram LAPIC_IRR 37 (apic.set ram LAPIC_IRR 37 ⟨fun _ => 0, []⟩)).hw
        LAPIC_IRR = vector_slots (fun _ => 0) LAPIC_IRR
      ↔ vector_bit (fun _ => 0) LAPIC_IRR 37 = false) :=
  ⟨by decide, set_then_clr_restores_iff_clear (fun _ => 0) [] LAPIC_IRR 37 (by decide)⟩

/-- C7 does not hold for every state: with bit 5 of the in-service register already set,
`apic::set` then `apic::clr` of bit 5 leaves it clear, not as it was. -/
theorem set_then_clr_loses_set_bit :
    vector_slots (apic.clr ram LAPIC_ISR 5 (apic.set ram LAPIC_ISR 5 ⟨fun _ => 0x20, []⟩)).hw
        LAPIC_ISR ≠ vector_slots (fun _ => 0x20) LAPIC_ISR := by
  decide

/-- C10: on plain memory `APIC::get_isr` returns 0 for an all-zero in-service
register and otherwise the smallest index in 0..255 of a set bit; from an all-zero
register, `apic::set` of bit `b` followed by `get_isr` returns `b`. The same holds
for `APIC::get_irr` and the request register. -/
theorem get_isr_get_irr_lowest_set_bit :
    LowestSetBit (APIC.get_isr ram) LAPIC_ISR ∧ LowestSetBit (APIC.get_irr ram) LAPIC_IRR :=
  ⟨first_vector_lowest LAPIC_ISR, first_vector_lowest LAPIC_IRR⟩


theorem final_ok {σ : Type} (s : Sys σ) : final (Except.ok s : Run σ) = s := rfl

theorem final_error {σ : Type} (e : Stop × Sys σ) : final (Except.error e : Run σ) = e.2 := rfl

/-- Two stores followed by the busy-wait on send-pending follow the protocol. -/
theorem icr_command_follows {σ : Type} (dev : Platform σ) (fuel : Nat) (s : Sys σ) (hi lo : Nat) :
    FollowsIcrProtocol dev fuel s hi lo
      (spin_until dev (.lapic LAPIC_ICRL) send_idle fuel
        (wr dev (.lapic LAPIC_ICRL) lo (wr dev (.lapic LAPIC_ICRH) hi s))) := by
  have hlog : (wr dev (.lapic LAPIC_ICRL) lo (wr dev (.lapic LAPIC_ICRH) hi s)).log =
      s.log ++ [Event.wr (.lapic LAPIC_ICRH) hi, Event.wr (.lapic LAPIC_ICRL) lo] := by
    simp [wr]
  have hret := spin_until_returns dev (.lapic LAPIC_ICRL) send_idle fuel
    (wr dev (.lapic LAPIC_ICRL) lo (wr dev (.lapic LAPIC_ICRH) hi s))
  rcases spin_until_log dev (.lapic LAPIC_ICRL) send_idle fuel
    (wr dev (.lapic LAPIC_ICRL) lo (wr dev (.lapic LAPIC_ICRH) hi s)) with
    ⟨s', evs, h1, h2, h3, _⟩ | ⟨s', evs, h1, h2, h3, h4⟩
  · refine ⟨?_, ?_, ?_, hret⟩
    · rw [h1, final_ok, h2, hlog, writes_append, writes_append,
        writes_of_spin_trace _ _ _ h3]
      simp [writes]
    · intro s'' hs
      rw [h1] at hs
      injection hs with hs
      subst hs
      refine ⟨Event.wr (.lapic LAPIC_ICRH) hi :: Event.wr (.lapic LAPIC_ICRL) lo :: evs, ?_, ?_⟩
      · rw [h2, hlog]; simp
      · simp [icr_protocol, h3]
    · intro e he
      rw [h1] at he
      cases he
  · refine ⟨?_, ?_, ?_, hret⟩
    · rw [h1, final_error, h2, hlog, writes_append, writes_append,
        writes_of_stuck_trace _ _ _ h3]
      simp [writes]
    · intro s'' hs
      rw [h1] at hs
      cases hs
    · intro e he
      rw [h1] at he
      injection he with he
      subst he
      refine ⟨rfl, evs, ?_, h3, h4⟩
      rw [h2, hlog]; simp

theorem ap_init_follows {σ : Type} (dev : Platform σ) (fuel : Nat) (s : Sys σ) (id : Nat) :
    FollowsIcrProtocol dev fuel s (u32 (u8 id <<< 24)) 0x4500 (apic.ap_init dev fuel id s) :=
  icr_command_follows dev fuel s _ _

theorem ap_start_follows {σ : Type} (dev : Platform σ) (fuel : Nat) (s : Sys σ) (id v : Nat) :
    FollowsIcrProtocol dev fuel s (u32 (u8 id <<< 24)) (u32 v ||| 0x4600)
      (apic.ap_start dev fuel id v s) := by
  have h := icr_command_follows dev fuel s (u32 (u8 id <<< 24))
    (u32 v ||| ICR_STARTUP ||| ICR_PHYSICAL ||| ICR_ASSERT ||| ICR_EDGE ||| ICR_NO_SHORTHAND)
  have hlo : u32 v ||| ICR_STARTUP ||| ICR_PHYSICAL ||| ICR_ASSERT ||| ICR_EDGE ||| ICR_NO_SHORTHAND
      = u32 v ||| 0x4600 := by
    simp only [ICR_STARTUP, ICR_PHYSICAL, ICR_ASSERT, ICR_EDGE, ICR_NO_SHORTHAND, Nat.or_zero,
      Nat.or_assoc]
    rfl
  rw [← hlo]
  exact h

theorem send_ipi_writes {σ : Type} (dev : Platform σ) (s : Sys σ) (id v : Nat) :
    writes (APIC.send_ipi dev id v s).log = writes s.log ++
      [(.lapic LAPIC_ICRH, (u32 (dev.load s.hw (.lapic LAPIC_ICRH)).1 &&& 0x00ffffff)
          ||| u32 (u8 id <<< 24)),
       (.lapic LAPIC_ICRL, 0x4000 ||| u8 v)] := by
  simp [APIC.send_ipi, wr, rd, writes_append, writes, ICR_ASSERT, ICR_FIXED]

theorem bcast_ipi_writes {σ : Type} (dev : Platform σ) (s : Sys σ) (v : Nat) :
    writes (APIC.bcast_ipi dev v s).log = writes s.log ++ [(.lapic LAPIC_ICRL, 0xc4000 ||| u8 v)] := by
  simp [APIC.bcast_ipi, wr, writes_append, writes, ICR_ASSERT, ICR_ALL_EXCLUDING_SELF]


set_option maxRecDepth 100000 in
theorem dest_field_of_id : ∀ id, id < 256 → icr_destination (u32 (u8 id <<< 24)) = id := by
  decide

set_option maxRecDepth 100000 in
theorem startup_fields : ∀ v, v < 256 →
    icr_vector (u32 v ||| 0x4600) = v ∧ icr_delivery_mode (u32 v ||| 0x4600) = 0b110 ∧
    icr_destination_mode (u32 v ||| 0x4600) = 0 ∧ icr_level (u32 v ||| 0x4600) = 1 ∧
    icr_trigger_mode (u32 v ||| 0x4600) = 0 ∧ icr_shorthand (u32 v ||| 0x4600) = 0 := by
  decide

set_option maxRecDepth 100000 in
theorem fixed_fields : ∀ v, v < 256 →
    icr_vector (0x4000 ||| u8 v) = v ∧ icr_delivery_mode (0x4000 ||| u8 v) = 0 ∧
    icr_destination_mode (0x4000 ||| u8 v) = 0 ∧ icr_level (0x4000 ||| u8 v) = 1 ∧
    icr_shorthand (0x4000 ||| u8 v) = 0 := by
  decide

set_option maxRecDepth 100000 in
theorem bcast_fields : ∀ v, v < 256 →
    icr_vector (0xc4000 ||| u8 v) = v ∧ icr_delivery_mode (0xc4000 ||| u8 v) = 0 ∧
    icr_level (0xc4000 ||| u8 v) = 1 ∧ icr_shorthand (0xc4000 ||| u8 v) = 0b11 := by
  decide

theorem dest_field_merge (x id : Nat) (h : id < 256) :
    icr_destination ((x &&& 0x00ffffff) ||| u32 (u8 id <<< 24)) = id := by
  have hu : u32 (u8 id <<< 24) = id <<< 24 := by
    unfold u32 u8
    rw [Nat.mod_eq_of_lt h, Nat.shiftLeft_eq]
    apply Nat.mod_eq_of_lt
    omega
  rw [hu]
  unfold icr_destination
  apply Nat.eq_of_testBit_eq
  intro i
  have h24 : (0x00ffffff : Nat) = 2 ^ 24 - 1 := by norm_num
  have h8 : (0xFF : Nat) = 2 ^ 8 - 1 := by norm_num
  rw [h24, h8]
  simp only [Nat.testBit_and, Nat.testBit_shiftRight, Nat.testBit_or, Nat.testBit_shiftLeft,
    Nat.testBit_two_pow_sub_one]
  by_cases hi : i < 8
  · have : ¬ (24 + i < 24) := by omega
    simp [hi, this]
  · have : id.testBit i = false := by
      apply Nat.testBit_lt_two_pow
      calc id < 2 ^ 8 := h
        _ ≤ 2 ^ i := Nat.pow_le_pow_right (by norm_num) (by omega)
    simp [hi, this]

/-- C2: the words the four operations store in the interrupt command register,
decoded under the bit layout of the specification, for every target id and
vector up to 255 and every platform and prior state. `ap_init`: INIT (101),
physical, assert, edge, no shorthand, destination `id`. `ap_start`: vector `v`,
STARTUP (110), physical, assert, edge, no shorthand, destination `id`.
`send_ipi`: vector `v`, fixed (000), physical, assert, no shorthand, destination
`id`. `bcast_ipi`: vector `v`, fixed, assert, shorthand 11. -/
theorem icr_words_decode {σ : Type} (dev : Platform σ) (fuel : Nat) (s : Sys σ) (id v : Nat)
    (hid : id ≤ 255) (hv : v ≤ 255) :
    (∃ hi lo, writes (final (apic.ap_init dev fuel id s)).log =
        writes s.log ++ [(.lapic LAPIC_ICRH, hi), (.lapic LAPIC_ICRL, lo)] ∧
      icr_delivery_mode lo = 0b101 ∧ icr_destination_mode lo = 0 ∧ icr_level lo = 1 ∧
      icr_trigger_mode lo = 0 ∧ icr_shorthand lo = 0 ∧ icr_destination hi = id) ∧
    (∃ hi lo, writes (final (apic.ap_start dev fuel id v s)).log =
        writes s.log ++ [(.lapic LAPIC_ICRH, hi), (.lapic LAPIC_ICRL, lo)] ∧
      icr_vector lo = v ∧ icr_delivery_mode lo = 0b110 ∧ icr_destination_mode lo = 0 ∧
      icr_level lo = 1 ∧ icr_trigger_mode lo = 0 ∧ icr_shorthand lo = 0 ∧
      icr_destination hi = id) ∧
    (∃ hi lo, writes (APIC.send_ipi dev id v s).log =
        writes s.log ++ [(.lapic LAPIC_ICRH, hi), (.lapic LAPIC_ICRL, lo)] ∧
      icr_vector lo = v ∧ icr_delivery_mode lo = 0 ∧ icr_destination_mode lo = 0 ∧
      icr_level lo = 1 ∧ icr_shorthand lo = 0 ∧ icr_destination hi = id) ∧
    (∃ lo, writes (APIC.bcast_ipi dev v s).log = writes s.log ++ [(.lapic LAPIC_ICRL, lo)] ∧
      icr_vector lo = v ∧ icr_delivery_mode lo = 0 ∧ icr_level lo = 1 ∧
      icr_shorthand lo = 0b11) := by
  have hid2 : id < 256 := by omega
  have hv2 : v < 256 := by omega
  refine ⟨?_, ?_, ?_, ?_⟩
  · exact ⟨_, _, (ap_init_follows dev fuel s id).1, by decide, by decide, by decide, by decide,
      by decide, dest_field_of_id id hid2⟩
  · obtain ⟨f1, f2, f3, f4, f5, f6⟩ := startup_fields v hv2
    exact ⟨_, _, (ap_start_follows dev fuel s id v).1, f1, f2, f3, f4, f5, f6,
      dest_field_of_id id hid2⟩
  · obtain ⟨f1, f2, f3, f4, f5⟩ := fixed_fields v hv2
    exact ⟨_, _, send_ipi_writes dev s id v, f1, f2, f3, f4, f5, dest_field_merge _ id hid2⟩
  · obtain ⟨f1, f2, f3, f4⟩ := bcast_fields v hv2
    exact ⟨_, bcast_ipi_writes dev s v, f1, f2, f3, f4⟩


/-- C2 at target 1 and vector 0x80, on plain memory. -/
theorem icr_words_decode_witness :
    (1 ≤ 255 ∧ 0x80 ≤ 255) ∧
    ((∃ hi lo, writes (final (apic.ap_init ram 1 1 ⟨fun _ => 0, []⟩)).log =
        writes [] ++ [(.lapic LAPIC_ICRH, hi), (.lapic LAPIC_ICRL, lo)] ∧
      icr_delivery_mode lo = 0b101 ∧ icr_destination_mode lo = 0 ∧ icr_level lo = 1 ∧
      icr_trigger_mode lo = 0 ∧ icr_shorthand lo = 0 ∧ icr_destination hi = 1) ∧
    (∃ hi lo, writes (final (apic.ap_start ram 1 1 0x80 ⟨fun _ => 0, []⟩)).log =
        writes [] ++ [(.lapic LAPIC_ICRH, hi), (.lapic LAPIC_ICRL, lo)] ∧
      icr_vector lo = 0x80 ∧ icr_delivery_mode lo = 0b110 ∧ icr_destination_mode lo = 0 ∧
      icr_level lo = 1 ∧ icr_trigger_mode lo = 0 ∧ icr_shorthand lo = 0 ∧
      icr_destination hi = 1) ∧
    (∃ hi lo, writes (APIC.send_ipi ram 1 0x80 ⟨fun _ => 0, []⟩).log =
        writes [] ++ [(.lapic LAPIC_ICRH, hi), (.lapic LAPIC_ICRL, lo)] ∧
      icr_vector lo = 0x80 ∧ icr_delivery_mode lo = 0 ∧ icr_destination_mode lo = 0 ∧
      icr_level lo = 1 ∧ icr_shorthand lo = 0 ∧ icr_destination hi = 1) ∧
    (∃ lo, writes (APIC.bcast_ipi ram 0x80 ⟨fun _ => 0, []⟩).log =
        writes [] ++ [(.lapic LAPIC_ICRL, lo)] ∧
      icr_vector lo = 0x80 ∧ icr_delivery_mode lo = 0 ∧ icr_level lo = 1 ∧
      icr_shorthand lo = 0b11)) :=
  ⟨⟨by decide, by decide⟩,
    icr_words_decode ram 1 ⟨fun _ => 0, []⟩ 1 0x80 (by decide) (by decide)⟩

/-- C3 does not hold of all four operations: `APIC::bcast_ipi` issues a single store, to command-low;
it does not store to command-high and does not read command-low afterwards. -/
theorem bcast_ipi_skips_protocol :
    (APIC.bcast_ipi ram 0x20 ⟨fun _ => 0, []⟩).log = [Event.wr (.lapic LAPIC_ICRL) 0xc4020] ∧
    icr_protocol (APIC.bcast_ipi ram 0x20 ⟨fun _ => 0, []⟩).log = false := by
  decide

/-- C3, amended: `apic::ap_init` and `apic::ap_start` follow the command
protocol (one store to command-high, one store to command-low, then re-reads of
command-low until send-pending is clear), on every platform and from every
state, with the same high word for the same target and differing in the low
word only. `APIC::send_ipi` stores to command-high and then to command-low, and
`APIC::bcast_ipi` stores to command-low only. -/
theorem icr_protocol_followed {σ : Type} (dev : Platform σ) (fuel : Nat) (s : Sys σ) (id v : Nat) :
    FollowsIcrProtocol dev fuel s (u32 (u8 id <<< 24)) 0x4500 (apic.ap_init dev fuel id s) ∧
    FollowsIcrProtocol dev fuel s (u32 (u8 id <<< 24)) (u32 v ||| 0x4600)
      (apic.ap_start dev fuel id v s) ∧
    writes (APIC.send_ipi dev id v s).log = writes s.log ++
      [(.lapic LAPIC_ICRH, (u32 (dev.load s.hw (.lapic LAPIC_ICRH)).1 &&& 0x00ffffff)
          ||| u32 (u8 id <<< 24)),
       (.lapic LAPIC_ICRL, 0x4000 ||| u8 v)] ∧
    writes (APIC.bcast_ipi dev v s).log = writes s.log ++ [(.lapic LAPIC_ICRL, 0xc4000 ||| u8 v)] :=
  ⟨ap_init_follows dev fuel s id, ap_start_follows dev fuel s id v, send_ipi_writes dev s id v,
    bcast_ipi_writes dev s v⟩

/-- C4: for `ap_init`, `ap_start` and `send_ipi`, on every platform and from
every state, the stores of the operation are exactly a store to command-high
followed by a store to command-low: the destination is written before the
command, and command-low is not written before command-high. -/
theorem destination_written_before_command {σ : Type} (dev : Platform σ) (fuel : Nat) (s : Sys σ)
    (id v : Nat) :
    (∃ hi lo, writes (final (apic.ap_init dev fuel id s)).log =
      writes s.log ++ [(.lapic LAPIC_ICRH, hi), (.lapic LAPIC_ICRL, lo)]) ∧
    (∃ hi lo, writes (final (apic.ap_start dev fuel id v s)).log =
      writes s.log ++ [(.lapic LAPIC_ICRH, hi), (.lapic LAPIC_ICRL, lo)]) ∧
    (∃ hi lo, writes (APIC.send_ipi dev id v s).log =
      writes s.log ++ [(.lapic LAPIC_ICRH, hi), (.lapic LAPIC_ICRL, lo)]) :=
  ⟨⟨_, _, (ap_init_follows dev fuel s id).1⟩, ⟨_, _, (ap_start_follows dev fuel s id v).1⟩,
    ⟨_, _, send_ipi_writes dev s id v⟩⟩

/-- C9: `APIC::enable`, on every platform and from every state, stores to the
spurious-vector register once; the value is 0x17f, whose bits 0-7 are 0x7f and
whose low four bits are 1111. On plain memory the register holds that value
afterwards. -/
theorem enable_spurious_vector {σ : Type} (dev : Platform σ) (s : Sys σ) :
    (∃ w, (writes (APIC.enable dev s).log).filter (fun p => p.1 = .lapic LAPIC_SPURIOUS) =
        (writes s.log).filter (fun p => p.1 = .lapic LAPIC_SPURIOUS) ++
          [(.lapic LAPIC_SPURIOUS, w)] ∧
      w = 0x17f ∧ w &&& 0xFF = 0x7f ∧ w &&& 0xF = 0b1111) ∧
    (∀ (m : Loc → Nat) (log : List Event),
      (APIC.enable ram ⟨m, log⟩).hw (.lapic LAPIC_SPURIOUS) = 0x17f) := by
  constructor
  · refine ⟨0x17f, ?_, rfl, by decide, by decide⟩
    simp only [APIC.enable, apic.enable_intr, APIC.eoi, wr, writes_append, List.filter_append]
    simp only [List.append_assoc]
    congr 1
  · intro m log
    simp [APIC.enable, apic.enable_intr, APIC.eoi, wr, ram, Function.update, LAPIC_SPURIOUS,
      LAPIC_TPR, LAPIC_EOI, slot, u8]


theorem ioapic_enables_append (a b : List Event) :
    ioapic_enables (a ++ b) = ioapic_enables a ++ ioapic_enables b := by
  induction a with
  | nil => rfl
  | cons e a ih =>
    cases e with
    | ext c r => cases c <;> simp [ioapic_enables, ih]
    | _ => simp [ioapic_enables, ih]

theorem get_id_log {σ : Type} (dev : Platform σ) (s : Sys σ) :
    (apic.get_id dev s).2.log =
      s.log ++ [Event.rd (.lapic LAPIC_ID) (u32 (dev.load s.hw (.lapic LAPIC_ID)).1)] := by
  simp [apic.get_id, rd]

theorem get_id_of_has_id {σ : Type} (dev : Platform σ) (self : Nat) (h : HasId dev self)
    (s : Sys σ) : (apic.get_id dev s).1 = self := by
  simpa [apic.get_id, rd] using h s.hw

/-- C6: for every override table and every irq, `APIC::enable_irq` calls
`IOAPIC::enable` exactly once, with the value of `lapic.get_id()` as the target
core: for the global entry `global_intr` of the first override whose
`irq_source` is the irq when there is one, and for the irq itself when there is
none. On a platform whose identifier register reads `self`, the target is
`self`. -/
theorem enable_irq_routes {σ : Type} (dev : Platform σ) (overrides : List override_t) (irq : Nat)
    (s : Sys σ) :
    ioapic_enables (APIC.enable_irq dev overrides irq s).log = ioapic_enables s.log ++
      [((match overrides.find? (fun redir => decide (redir.irq_source = u8 irq)) with
          | some redir => redir.global_intr
          | none => u8 irq),
        u8 irq, (apic.get_id dev (apic.get_id dev s).2).1)] ∧
    (∀ self, HasId dev self → (apic.get_id dev (apic.get_id dev s).2).1 = self) := by
  constructor
  · induction overrides with
    | nil =>
      simp [APIC.enable_irq, ext, get_id_log, ioapic_enables_append, ioapic_enables]
    | cons redir rest ih =>
      by_cases h : redir.irq_source = u8 irq
      · simp [APIC.enable_irq, h, ext, get_id_log, ioapic_enables_append, ioapic_enables,
          List.find?]
      · simp only [APIC.enable_irq, h, if_false, List.find?, decide_False]
        exact ih
  · intro self h
    exact get_id_of_has_id dev self h _


/-- C5: one call of `APIC::start_task`, for every pair of function pointers, on
every platform and from every state. Up to the wait its events are, in order:
the stores of `task` and `done` in the dispatch slot, the reset of the task
barrier to 1, the broadcast of vector 0x20 to all-excluding-self, one call of
`task` with the value `get_cpu_id()` returned, and the entry into
`spin_wait(core_count)`. If the call returns, what follows is a completed
busy-wait on the task barrier and then one call of `done`, the last event. If
it does not return, it is still re-reading the barrier and `done` has not been
called. It returns exactly when one of the first `fuel` reads of the barrier
shows the core count or more. -/
theorem start_task_order {σ : Type} (dev : Platform σ) (fuel : Nat) (cpus : List LAPIC)
    (task done : Nat) (s : Sys σ) :
    ∃ (s1 : Sys σ) (id ret : Nat),
      s1.log = s.log ++
        [Event.wr .task_func task, Event.wr .done_func done,
         Event.reset .task_barrier 1, Event.wr .task_barrier 1,
         Event.wr (.lapic LAPIC_ICRL) 0xc4020,
         Event.ext .get_cpu_id id, Event.ext (.invoke task id) ret,
         Event.spin_wait .task_barrier cpus.length] ∧
      s1.hw = (dev.call (dev.call (dev.store (dev.store (dev.store (dev.store s.hw
          .task_func task) .done_func done) .task_barrier 1) (.lapic LAPIC_ICRL) 0xc4020)
          .get_cpu_id).2 (.invoke task id)).2 ∧
      (∀ s', APIC.start_task dev fuel cpus task done s = .ok s' →
        ∃ polls ret', s'.log = s1.log ++ polls ++ [Event.ext (.invoke_done done) ret'] ∧
          spin_trace .task_barrier (arrived cpus.length) polls = true) ∧
      (∀ e, APIC.start_task dev fuel cpus task done s = .error e →
        e.1 = Stop.spinning ∧
        ∃ polls, e.2.log = s1.log ++ polls ∧
          stuck_trace .task_barrier (arrived cpus.length) polls = true ∧ polls.length = fuel) ∧
      ((∃ s', APIC.start_task dev fuel cpus task done s = .ok s') ↔
        ∃ k < fuel, arrived cpus.length (poll dev .task_barrier k s1.hw) = true) := by
  let c := ext dev .get_cpu_id
    (APIC.bcast_ipi dev 0x20 (barrier.reset dev .task_barrier 1
      (wr dev .done_func done (wr dev .task_func task s))))
  let s0 := (ext dev (.invoke task c.1) c.2).2
  let s1 : Sys σ := { s0 with log := s0.log ++ [Event.spin_wait .task_barrier cpus.length] }
  have hrun : APIC.start_task dev fuel cpus task done s =
      (spin_until dev .task_barrier (arrived cpus.length) fuel s1).bind
        fun s2 => .ok (ext dev (.invoke_done done) s2).2 := rfl
  refine ⟨s1, c.1, (dev.call c.2.hw (.invoke task c.1)).1, ?_, ?_, ?_, ?_, ?_⟩
  · simp [s1, s0, c, ext, APIC.bcast_ipi, barrier.reset, wr, ICR_ALL_EXCLUDING_SELF, ICR_ASSERT,
      u8]
  · simp [s1, s0, c, ext, APIC.bcast_ipi, barrier.reset, wr, ICR_ALL_EXCLUDING_SELF, ICR_ASSERT,
      u8]
  · intro s' hs
    rw [hrun] at hs
    rcases spin_until_log dev .task_barrier (arrived cpus.length) fuel s1 with
      ⟨s2, evs, h1, h2, h3, _⟩ | ⟨s2, evs, h1, _, _, _⟩
    · rw [h1] at hs
      simp only [Except.bind] at hs
      injection hs with hs
      subst hs
      exact ⟨evs, (dev.call s2.hw (.invoke_done done)).1, by simp [ext, h2], h3⟩
    · rw [h1] at hs
      simp [Except.bind] at hs
  · intro e he
    rw [hrun] at he
    rcases spin_until_log dev .task_barrier (arrived cpus.length) fuel s1 with
      ⟨s2, evs, h1, _, _, _⟩ | ⟨s2, evs, h1, h2, h3, h4⟩
    · rw [h1] at he
      simp [Except.bind] at he
    · rw [h1] at he
      simp only [Except.bind] at he
      injection he with he
      subst he
      exact ⟨rfl, evs, h2, h3, h4⟩
  · rw [hrun, ← spin_until_returns]
    constructor
    · rintro ⟨s', hs⟩
      cases hsp : spin_until dev .task_barrier (arrived cpus.length) fuel s1 with
      | ok s2 => exact ⟨s2, rfl⟩
      | error e => rw [hsp] at hs; simp [Except.bind] at hs
    · rintro ⟨s2, hs⟩
      rw [hs]
      exact ⟨_, rfl⟩


theorem commands_append (a b : List Event) : commands (a ++ b) = commands a ++ commands b := by
  simp [commands]

theorem commands_of_spin_trace (l : Loc) (stop : Nat → Bool) :
    ∀ evs, spin_trace l stop evs = true → commands evs = [] := by
  intro evs
  induction evs with
  | nil => intro _; rfl
  | cons e evs ih =>
    cases e with
    | rd a v =>
      cases evs with
      | nil => intro _; rfl
      | cons e2 evs2 =>
        intro h
        simp only [spin_trace, Bool.and_eq_true] at h
        have := ih h.2
        simpa [commands, is_command] using this
    | wr a v => intro h; simp [spin_trace] at h
    | ext c r => intro h; simp [spin_trace] at h
    | reset b n => intro h; simp [spin_trace] at h
    | spin_wait b n => intro h; simp [spin_trace] at h

theorem commands_of_stuck_trace (l : Loc) (stop : Nat → Bool) :
    ∀ evs, stuck_trace l stop evs = true → commands evs = [] := by
  intro evs
  induction evs with
  | nil => intro _; rfl
  | cons e evs ih =>
    cases e with
    | rd a v =>
      intro h
      simp only [stuck_trace, Bool.and_eq_true] at h
      have := ih h.2
      simpa [commands, is_command] using this
    | wr a v => intro h; simp [stuck_trace] at h
    | ext c r => intro h; simp [stuck_trace] at h
    | reset b n => intro h; simp [stuck_trace] at h
    | spin_wait b n => intro h; simp [stuck_trace] at h

theorem commands_get_id {σ : Type} (dev : Platform σ) (s : Sys σ) :
    commands (apic.get_id dev s).2.log = commands s.log := by
  rw [get_id_log, commands_append]
  simp [commands, is_command]

/-- On a responsive platform a command returns, and adds its two stores to the
commands of the log. -/
theorem icr_command_returns {σ : Type} (dev : Platform σ) (fuel : Nat) (hresp : Responsive dev fuel)
    (s : Sys σ) (hi lo : Nat) (hlo : lo &&& ICR_SEND_PENDING = 0) :
    ∃ s', spin_until dev (.lapic LAPIC_ICRL) send_idle fuel
        (wr dev (.lapic LAPIC_ICRL) lo (wr dev (.lapic LAPIC_ICRH) hi s)) = .ok s' ∧
      commands s'.log = commands s.log ++
        [Event.wr (.lapic LAPIC_ICRH) hi, Event.wr (.lapic LAPIC_ICRL) lo] := by
  have hret := (spin_until_returns dev (.lapic LAPIC_ICRL) send_idle fuel
    (wr dev (.lapic LAPIC_ICRL) lo (wr dev (.lapic LAPIC_ICRH) hi s))).mpr
    (hresp (dev.store s.hw (.lapic LAPIC_ICRH) hi) lo hlo)
  obtain ⟨s', hs⟩ := hret
  refine ⟨s', hs, ?_⟩
  rcases spin_until_log dev (.lapic LAPIC_ICRL) send_idle fuel
    (wr dev (.lapic LAPIC_ICRL) lo (wr dev (.lapic LAPIC_ICRH) hi s)) with
    ⟨s2, evs, h1, h2, h3, _⟩ | ⟨s2, evs, h1, _, _, _⟩
  · rw [hs] at h1
    injection h1 with h1
    subst h1
    rw [h2, commands_append, commands_of_spin_trace _ _ _ h3]
    simp [wr, commands, is_command]
  · rw [hs] at h1
    cases h1


theorem ap_init_returns {σ : Type} (dev : Platform σ) (fuel : Nat) (hresp : Responsive dev fuel)
    (s : Sys σ) (id : Nat) :
    ∃ s', apic.ap_init dev fuel id s = .ok s' ∧
      commands s'.log = commands s.log ++
        [Event.wr (.lapic LAPIC_ICRH) (dest_word id), Event.wr (.lapic LAPIC_ICRL) 0x4500] :=
  icr_command_returns dev fuel hresp s (dest_word id) 0x4500 (by decide)

theorem ap_start_returns {σ : Type} (dev : Platform σ) (fuel : Nat) (hresp : Responsive dev fuel)
    (s : Sys σ) (id : Nat) :
    ∃ s', apic.ap_start dev fuel id 0x80 s = .ok s' ∧
      commands s'.log = commands s.log ++
        [Event.wr (.lapic LAPIC_ICRH) (dest_word id), Event.wr (.lapic LAPIC_ICRL) 0x4680] :=
  icr_command_returns dev fuel hresp s (dest_word id) 0x4680 (by decide)

theorem init_aps_commands {σ : Type} (dev : Platform σ) (fuel : Nat) (self : Nat)
    (hid : HasId dev self) (hresp : Responsive dev fuel) :
    ∀ (cpus : List LAPIC) (s : Sys σ),
      ∃ s', init_aps dev fuel cpus s = .ok s' ∧
        commands s'.log = commands s.log ++
          init_commands (cpus.filter fun c => decide (c.id ≠ self)) := by
  intro cpus
  induction cpus with
  | nil => intro s; exact ⟨s, rfl, by simp [init_commands]⟩
  | cons cpu rest ih =>
    intro s
    have hself := get_id_of_has_id dev self hid s
    by_cases hc : cpu.id = self
    · obtain ⟨s', h1, h2⟩ := ih (apic.get_id dev s).2
      refine ⟨s', ?_, ?_⟩
      · simp only [init_aps, hself, hc, ne_eq, not_true_eq_false, if_false]
        exact h1
      · rw [h2, commands_get_id]
        simp [List.filter, hc]
    · obtain ⟨s1, a1, a2⟩ := ap_init_returns dev fuel hresp (apic.get_id dev s).2 cpu.id
      obtain ⟨s', h1, h2⟩ := ih s1
      refine ⟨s', ?_, ?_⟩
      · simp only [init_aps, hself, ne_eq, hc, not_false_eq_true, if_true, a1, Except.bind]
        exact h1
      · rw [h2, a2, commands_get_id]
        simp [List.filter, hc, init_commands]

theorem start_aps_commands {σ : Type} (dev : Platform σ) (fuel : Nat) (self : Nat)
    (hid : HasId dev self) (hresp : Responsive dev fuel) :
    ∀ (cpus : List LAPIC) (s : Sys σ),
      ∃ s', start_aps dev fuel cpus s = .ok s' ∧
        commands s'.log = commands s.log ++
          startup_commands (cpus.filter fun c => decide (c.id ≠ self)) := by
  intro cpus
  induction cpus with
  | nil => intro s; exact ⟨s, rfl, by simp [startup_commands]⟩
  | cons cpu rest ih =>
    intro s
    have hself := get_id_of_has_id dev self hid s
    by_cases hc : cpu.id = self
    · obtain ⟨s', h1, h2⟩ := ih (apic.get_id dev s).2
      refine ⟨s', ?_, ?_⟩
      · simp only [start_aps, hself, hc, if_true]
        exact h1
      · rw [h2, commands_get_id]
        simp [List.filter, hc]
    · obtain ⟨s1, a1, a2⟩ := ap_start_returns dev fuel hresp (apic.get_id dev s).2 cpu.id
      obtain ⟨s2, b1, b2⟩ := ap_start_returns dev fuel hresp s1 cpu.id
      obtain ⟨s', h1, h2⟩ := ih s2
      refine ⟨s', ?_, ?_⟩
      · simp only [start_aps, hself, hc, if_false, a1, b1, Except.bind]
        exact h1
      · rw [h2, b2, a2, commands_get_id]
        simp [List.filter, hc, startup_commands]

theorem commands_idt_fill {σ : Type} (dev : Platform σ) (handler : Nat) :
    ∀ (n i : Nat) (s : Sys σ), commands (idt_fill dev handler n i s).log = commands s.log := by
  intro n
  induction n with
  | zero => intro i s; rfl
  | succ n ih =>
    intro i s
    simp only [idt_fill]
    rw [ih]
    simp [wr, commands, is_command]

theorem others_length (self : Nat) : ∀ cpus : List LAPIC,
    (cpus.map LAPIC.id).Nodup → self ∈ cpus.map LAPIC.id →
    (cpus.filter fun c => decide (c.id ≠ self)).length + 1 = cpus.length := by
  intro cpus
  induction cpus with
  | nil => intro _ h; simp at h
  | cons cpu rest ih =>
    intro hnd hmem
    simp only [List.map_cons, List.nodup_cons] at hnd
    by_cases hc : cpu.id = self
    · have hnot : self ∉ rest.map LAPIC.id := hc ▸ hnd.1
      have hall : (rest.filter fun c => decide (c.id ≠ self)) = rest := by
        apply List.filter_eq_self.mpr
        intro c hcm
        have : c.id ≠ self := by
          intro h
          exact hnot (h ▸ List.mem_map_of_mem LAPIC.id hcm)
        simpa using this
      rw [List.filter_cons_of_neg (by simp [hc]), hall, List.length_cons]
    · have hmem2 : self ∈ rest.map LAPIC.id := by
        simp only [List.map_cons, List.mem_cons] at hmem
        rcases hmem with h | h
        · exact absurd h.symm hc
        · exact h
      have := ih hnd.2 hmem2
      rw [List.filter_cons_of_pos (by simp [hc]), List.length_cons, List.length_cons]
      omega


theorem init_smp_unfold {σ : Type} (dev : Platform σ) (fuel : Nat) (img : Image)
    (cpus : List LAPIC) (s : Sys σ) (hN : 1 < cpus.length) :
    ∃ s0 : Sys σ,
      commands s0.log = commands s.log ++ [Event.reset .boot_barrier 1] ∧
      APIC.init_smp dev fuel img cpus s =
        (init_aps dev fuel cpus s0).bind fun s1 =>
        (start_aps dev fuel cpus s1).bind fun s2 =>
        barrier.spin_wait dev fuel .boot_barrier cpus.length s2 := by
  unfold APIC.init_smp
  rw [if_neg (not_not.mpr hN)]
  refine ⟨_, ?_, rfl⟩
  simp only [barrier.reset, wr, ext, commands_append, commands_idt_fill]
  simp [commands, is_command]

theorem commands_spin_wait {σ : Type} (dev : Platform σ) (fuel : Nat) (b : Loc) (target : Nat)
    (s : Sys σ) :
    commands (final (barrier.spin_wait dev fuel b target s)).log =
      commands s.log ++ [Event.spin_wait b target] ∧
    ∀ e, barrier.spin_wait dev fuel b target s = .error e → e.1 = Stop.spinning := by
  unfold barrier.spin_wait
  rcases spin_until_log dev b (arrived target) fuel
    { s with log := s.log ++ [Event.spin_wait b target] } with
    ⟨s', evs, h1, h2, h3, _⟩ | ⟨s', evs, h1, h2, h3, _⟩
  · rw [h1]
    refine ⟨?_, fun e he => by cases he⟩
    rw [final_ok, h2, commands_append, commands_of_spin_trace _ _ _ h3, commands_append]
    simp [commands, is_command]
  · rw [h1]
    refine ⟨?_, fun e he => by injection he with he; subst he; rfl⟩
    rw [final_error, h2, commands_append, commands_of_stuck_trace _ _ _ h3, commands_append]
    simp [commands, is_command]

theorem filter_startup_commands (evs : List Event) :
    evs.filter is_startup = (commands evs).filter is_startup := by
  unfold commands
  rw [List.filter_filter]
  apply List.filter_congr
  intro e _
  cases e with
  | wr l v =>
    by_cases h : l = .lapic LAPIC_ICRL
    · simp [is_startup, is_command, h]
    · simp [is_startup, is_command, h]
  | _ => simp [is_startup, is_command]

theorem filter_startup_init : ∀ cpus : List LAPIC,
    (init_commands cpus).filter is_startup = [] := by
  intro cpus
  induction cpus with
  | nil => rfl
  | cons c rest ih =>
    have h1 : is_startup (Event.wr (.lapic LAPIC_ICRH) (dest_word c.id)) = false := by
      simp [is_startup, LAPIC_ICRH, LAPIC_ICRL, slot]
    have h2 : is_startup (Event.wr (.lapic LAPIC_ICRL) 0x4500) = false := by decide
    simp [init_commands, List.filter, h1, h2, ih]

theorem filter_startup_startup : ∀ cpus : List LAPIC,
    (startup_commands cpus).filter is_startup =
      List.replicate (2 * cpus.length) (Event.wr (.lapic LAPIC_ICRL) 0x4680) := by
  intro cpus
  induction cpus with
  | nil => rfl
  | cons c rest ih =>
    have h1 : is_startup (Event.wr (.lapic LAPIC_ICRH) (dest_word c.id)) = false := by
      simp [is_startup, LAPIC_ICRH, LAPIC_ICRL, slot]
    have h2 : is_startup (Event.wr (.lapic LAPIC_ICRL) 0x4680) = true := by decide
    have hlen : 2 * (c :: rest).length = 2 * rest.length + 1 + 1 := by simp; omega
    rw [hlen, List.replicate_succ, List.replicate_succ]
    simp [startup_commands, List.filter, h1, h2, ih]


/-- C1: `APIC::init_smp` over a list of N > 1 cores with pairwise distinct
identifiers, one of them the identifier `self` that `lapic.get_id()` reads, on a
platform where every command leaves send-pending within `fuel` reads. The
interrupt commands and barrier calls of the run are, in order: the reset of the
boot barrier to 1, one INIT command per core other than `self`, one pair of
consecutive STARTUP commands per core other than `self`, and the entry into
`spin_wait(N)`. There are N-1 such cores, so the STARTUP stores to command-low
are 2*(N-1), each the word 0x4680 with start vector 0x80 = 0x80000 / 4096. The
run does not stop on the assertion. -/
theorem init_smp_commands {σ : Type} (dev : Platform σ) (fuel : Nat) (img : Image)
    (cpus : List LAPIC) (self : Nat) (s : Sys σ)
    (hN : 1 < cpus.length) (hnodup : (cpus.map LAPIC.id).Nodup)
    (hself : self ∈ cpus.map LAPIC.id) (hid : HasId dev self) (hresp : Responsive dev fuel) :
    (cpus.filter fun c => decide (c.id ≠ self)).length = cpus.length - 1 ∧
    commands (final (APIC.init_smp dev fuel img cpus s)).log =
      commands s.log ++ [Event.reset .boot_barrier 1] ++
        init_commands (cpus.filter fun c => decide (c.id ≠ self)) ++
        startup_commands (cpus.filter fun c => decide (c.id ≠ self)) ++
        [Event.spin_wait .boot_barrier cpus.length] ∧
    (final (APIC.init_smp dev fuel img cpus s)).log.filter is_startup =
      s.log.filter is_startup ++
        List.replicate (2 * (cpus.length - 1)) (Event.wr (.lapic LAPIC_ICRL) 0x4680) ∧
    icr_vector 0x4680 = 0x80 ∧ 0x80 = BOOTLOADER_LOCATION / 4096 ∧
    (∀ e, APIC.init_smp dev fuel img cpus s = .error e → e.1 = Stop.spinning) := by
  have hlen := others_length self cpus hnodup hself
  have hlen2 : (cpus.filter fun c => decide (c.id ≠ self)).length = cpus.length - 1 := by omega
  obtain ⟨s0, hc0, hrun⟩ := init_smp_unfold dev fuel img cpus s hN
  obtain ⟨s1, hr1, hc1⟩ := init_aps_commands dev fuel self hid hresp cpus s0
  obtain ⟨s2, hr2, hc2⟩ := start_aps_commands dev fuel self hid hresp cpus s1
  have hrun2 : APIC.init_smp dev fuel img cpus s =
      barrier.spin_wait dev fuel .boot_barrier cpus.length s2 := by
    rw [hrun, hr1]
    simp only [Except.bind]
    rw [hr2]
  obtain ⟨hc3, hstop⟩ := commands_spin_wait dev fuel .boot_barrier cpus.length s2
  have hcmd : commands (final (APIC.init_smp dev fuel img cpus s)).log =
      commands s.log ++ [Event.reset .boot_barrier 1] ++
        init_commands (cpus.filter fun c => decide (c.id ≠ self)) ++
        startup_commands (cpus.filter fun c => decide (c.id ≠ self)) ++
        [Event.spin_wait .boot_barrier cpus.length] := by
    rw [hrun2, hc3, hc2, hc1, hc0]
  refine ⟨hlen2, hcmd, ?_, by decide, by decide, ?_⟩
  · rw [filter_startup_commands, hcmd]
    simp only [List.filter_append, filter_startup_init, filter_startup_startup, hlen2,
      ← filter_startup_commands]
    simp [List.filter, is_startup]
  · intro e he
    rw [hrun2] at he
    exact hstop e he

theorem mock_has_id (self : Nat) (h : self < 256) : HasId (mock self) self := by
  intro m
  have := dest_field_of_id self h
  simpa [mock, icr_destination, u8, Nat.mod_eq_of_lt h] using this

theorem mock_responsive (self : Nat) : Responsive (mock self) 1 := by
  intro m v hv
  refine ⟨0, Nat.one_pos, ?_⟩
  have hne : Loc.lapic LAPIC_ICRL ≠ Loc.lapic LAPIC_ID := by decide
  simp only [poll, mock, hne, if_false, Function.update_same, send_idle, decide_eq_true_eq]
  apply Nat.eq_of_testBit_eq
  intro i
  have := congrArg (fun w => w.testBit i) hv
  simp only [Nat.testBit_and, Nat.zero_testBit] at this ⊢
  rw [testBit_u32]
  cases h32 : decide (i < 32) <;> simp [this]


/-- C1 on four cores with identifiers 0 to 3, run from core 0 on plain memory. -/
theorem init_smp_commands_witness :
    (1 < four_cores.length ∧ (four_cores.map LAPIC.id).Nodup ∧ 0 ∈ four_cores.map LAPIC.id ∧
      HasId (mock 0) 0 ∧ Responsive (mock 0) 1) ∧
    ((four_cores.filter fun c => decide (c.id ≠ 0)).length = four_cores.length - 1 ∧
    commands (final (APIC.init_smp (mock 0) 1 sample_image four_cores ⟨fun _ => 0, []⟩)).log =
      commands [] ++ [Event.reset .boot_barrier 1] ++
        init_commands (four_cores.filter fun c => decide (c.id ≠ 0)) ++
        startup_commands (four_cores.filter fun c => decide (c.id ≠ 0)) ++
        [Event.spin_wait .boot_barrier four_cores.length] ∧
    (final (APIC.init_smp (mock 0) 1 sample_image four_cores ⟨fun _ => 0, []⟩)).log.filter
        is_startup =
      ([] : List Event).filter is_startup ++
        List.replicate (2 * (four_cores.length - 1)) (Event.wr (.lapic LAPIC_ICRL) 0x4680) ∧
    icr_vector 0x4680 = 0x80 ∧ 0x80 = BOOTLOADER_LOCATION / 4096 ∧
    (∀ e, APIC.init_smp (mock 0) 1 sample_image four_cores ⟨fun _ => 0, []⟩ = .error e →
      e.1 = Stop.spinning)) :=
  ⟨⟨by decide, by decide, by decide, mock_has_id 0 (by decide), mock_responsive 0⟩,
    init_smp_commands (mock 0) 1 sample_image four_cores 0 ⟨fun _ => 0, []⟩ (by decide)
      (by decide) (by decide) (mock_has_id 0 (by decide)) (mock_responsive 0)⟩

set_option maxRecDepth 1000000 in
/-- The bring-up run on four cores, evaluated: three INIT commands, three pairs
of STARTUP commands, and a wait for 4 that is still going when the fuel is used
up, since nothing in plain memory arrives at the barrier. -/
theorem init_smp_four_cores :
    commands (final (APIC.init_smp (mock 0) 1 sample_image four_cores ⟨fun _ => 0, []⟩)).log =
      [Event.reset .boot_barrier 1,
       Event.wr (.lapic 0x310) 0x01000000, Event.wr (.lapic 0x300) 0x4500,
       Event.wr (.lapic 0x310) 0x02000000, Event.wr (.lapic 0x300) 0x4500,
       Event.wr (.lapic 0x310) 0x03000000, Event.wr (.lapic 0x300) 0x4500,
       Event.wr (.lapic 0x310) 0x01000000, Event.wr (.lapic 0x300) 0x4680,
       Event.wr (.lapic 0x310) 0x01000000, Event.wr (.lapic 0x300) 0x4680,
       Event.wr (.lapic 0x310) 0x02000000, Event.wr (.lapic 0x300) 0x4680,
       Event.wr (.lapic 0x310) 0x02000000, Event.wr (.lapic 0x300) 0x4680,
       Event.wr (.lapic 0x310) 0x03000000, Event.wr (.lapic 0x300) 0x4680,
       Event.wr (.lapic 0x310) 0x03000000, Event.wr (.lapic 0x300) 0x4680,
       Event.spin_wait .boot_barrier 4] := by
  decide

set_option maxRecDepth 1000000 in
/-- The bring-up run on a simulated machine of four cores returns: six STARTUP
stores, and the boot barrier at 4 when the wait for 4 ends. -/
theorem init_smp_simulated_four_cores :
    returned (APIC.init_smp (smp 0 4) 1 sample_image four_cores ⟨⟨fun _ => 0, []⟩, []⟩) = true ∧
    ((final (APIC.init_smp (smp 0 4) 1 sample_image four_cores ⟨⟨fun _ => 0, []⟩, []⟩)).log.filter
      is_startup).length = 6 ∧
    (final (APIC.init_smp (smp 0 4) 1 sample_image four_cores ⟨⟨fun _ => 0, []⟩, []⟩)).log.getLast?
      = some (Event.rd .boot_barrier 4) := by
  decide

/-- A dispatch on a simulated machine of four cores, evaluated: the call
returns, and `done` (0x2000) is called once, after the wait has read 4. -/
theorem start_task_simulated_four_cores :
    returned (APIC.start_task (smp 0 4) 1 four_cores 0x1000 0x2000 ⟨⟨fun _ => 0, []⟩, []⟩) = true ∧
    (final (APIC.start_task (smp 0 4) 1 four_cores 0x1000 0x2000 ⟨⟨fun _ => 0, []⟩, []⟩)).log =
      [Event.wr .task_func 0x1000, Event.wr .done_func 0x2000,
       Event.reset .task_barrier 1, Event.wr .task_barrier 1,
       Event.wr (.lapic 0x300) 0xc4020,
       Event.ext .get_cpu_id 0, Event.ext (.invoke 0x1000 0) 0,
       Event.spin_wait .task_barrier 4, Event.rd .task_barrier 4,
       Event.ext (.invoke_done 0x2000) 0] := by
  decide

/-- A dispatch on plain memory, where no other core arrives: the wait is still
going when the fuel is used up and `done` has not been called. -/
theorem start_task_alone_spins :
    returned (APIC.start_task (mock 0) 3 four_cores 0x1000 0x2000 ⟨fun _ => 0, []⟩) = false ∧
    (final (APIC.start_task (mock 0) 3 four_cores 0x1000 0x2000 ⟨fun _ => 0, []⟩)).log =
      [Event.wr .task_func 0x1000, Event.wr .done_func 0x2000,
       Event.reset .task_barrier 1, Event.wr .task_barrier 1,
       Event.wr (.lapic 0x300) 0xc4020,
       Event.ext .get_cpu_id 0, Event.ext (.invoke 0x1000 0) 0,
       Event.spin_wait .task_barrier 4, Event.rd .task_barrier 1,
       Event.rd .task_barrier 1, Event.rd .task_barrier 1] := by
  decide

/-- The routing of two legacy lines with the timer override 0 -> 2 in the
table, evaluated on core 3: line 0 is enabled at global entry 2, line 1 at 1. -/
theorem enable_irq_evaluated :
    ioapic_enables (APIC.enable_irq (mock 3) [⟨0, 0, 2, 0⟩, ⟨0, 9, 9, 0xd⟩] 0 ⟨fun _ => 0, []⟩).log
      = [(2, 0, 3)] ∧
    ioapic_enables (APIC.enable_irq (mock 3) [⟨0, 0, 2, 0⟩, ⟨0, 9, 9, 0xd⟩] 1 ⟨fun _ => 0, []⟩).log
      = [(1, 1, 3)] := by
  decide

end hw

/-- C8 does not hold of file-backed requests: such a request (fd 3, null
address) in a build with assertions stops on the assertion, returns nothing and
leaves `errno` alone; with assertions compiled out the same request goes on to
call the allocator. -/
theorem mmap_file_backed_not_rejected :
    (syscall_SYS_mmap false 32 bump 0 4096 0 0 3 0 ⟨0x100000, 0, []⟩).1 ≠
      Outcome.returned (MAP_FAILED 32) ∧
    (syscall_SYS_mmap false 32 bump 0 4096 0 0 3 0 ⟨0x100000, 0, []⟩).1 = Outcome.assert_failed ∧
    (syscall_SYS_mmap false 32 bump 0 4096 0 0 3 0 ⟨0x100000, 0, []⟩).2.errno = 0 ∧
    (syscall_SYS_mmap true 32 bump 0 4096 0 0 3 0 ⟨0x100000, 0, []⟩).1 =
      Outcome.returned 0x100000 ∧
    (syscall_SYS_mmap true 32 bump 0 4096 0 0 3 0 ⟨0x100000, 0, []⟩).2.calls = [4096] := by
  decide

/-- C8, amended: a call with a non-null `addr` and `fd <= 0` returns
`MAP_FAILED` with `errno` set to `ENODEV`, without calling the allocator and
with its state unchanged; so does a call with a non-null `addr` and any `fd` in
a build without assertions. A call with `fd > 0`, in a build with assertions,
stops on the assertion, without calling the allocator and with the state
unchanged. -/
theorem mmap_unsupported_requests {α : Type} (NDEBUG : Bool) (bits : Nat) (A : Allocator α)
    (addr length : Nat) (prot flags fd offset : Int) (st : Heap α) :
    (addr ≠ 0 → (fd ≤ 0 ∨ NDEBUG = true) →
      syscall_SYS_mmap NDEBUG bits A addr length prot flags fd offset st =
        (Outcome.returned (MAP_FAILED bits),
          { alloc := st.alloc, errno := ENODEV, calls := st.calls })) ∧
    (fd > 0 → NDEBUG = false →
      syscall_SYS_mmap NDEBUG bits A addr length prot flags fd offset st =
        (Outcome.assert_failed, st)) := by
  constructor
  · intro haddr hfd
    have h1 : ¬ (fd > 0 ∧ NDEBUG = false) := by
      rintro ⟨h2, h3⟩
      rcases hfd with h | h
      · exact absurd h2 (not_lt.mpr h)
      · rw [h] at h3; cases h3
    simp [syscall_SYS_mmap, h1, haddr]
  · intro hfd hnd
    simp [syscall_SYS_mmap, hfd, hnd]

/-- C8, amended, on two requests: a mapping at address 0x1000 without a file is
refused with `ENODEV`, and a mapping of file 3 stops on the assertion. -/
theorem mmap_unsupported_requests_witness :
    ((0x1000 ≠ 0 ∧ ((-1 : Int) ≤ 0 ∨ false = true)) ∧
      syscall_SYS_mmap false 32 bump 0x1000 4096 3 0x22 (-1) 0 ⟨0x100000, 0, []⟩ =
        (Outcome.returned (MAP_FAILED 32), { alloc := 0x100000, errno := ENODEV, calls := [] })) ∧
    (((3 : Int) > 0 ∧ false = false) ∧
      syscall_SYS_mmap false 32 bump 0 4096 3 0x22 3 0 ⟨0x100000, 0, []⟩ =
        (Outcome.assert_failed, ⟨0x100000, 0, []⟩)) :=
  ⟨⟨⟨by decide, by decide⟩,
      (mmap_unsupported_requests false 32 bump 0x1000 4096 3 0x22 (-1) 0 ⟨0x100000, 0, []⟩).1
        (by decide) (by decide)⟩,
    ⟨⟨by decide, rfl⟩,
      (mmap_unsupported_requests false 32 bump 0 4096 3 0x22 3 0 ⟨0x100000, 0, []⟩).2
        (by decide) rfl⟩⟩
